import Mathlib

set_option maxRecDepth 8000
set_option maxHeartbeats 2000000

/-!
Verification of the safaribooks downloader (safaribooks.py) against its
natural-language specification.

The Python source is shallowly embedded: pure string manipulation is
translated to executable Lean functions over `String` / `List Char`;
filesystem state is passed explicitly as an association list from file
names to file contents; network fetches are oracles passed as function
arguments; fallible operations return `Except`.

Conventions used throughout:
  * Python `str.replace(a, b)` is embedded as `pyReplace` (fuel-based so
    that it evaluates by `decide`; the fuel `s.length` is always enough
    because the patterns used by the program are nonempty).
  * Python `x in s` (substring test) is embedded as `containsSub`.
  * Python `s.split(c)` for a one-character separator is `splitOnChar`.
  * Python `html.escape` (used with its default `quote=True`) is
    `escapeHtml`; its five sequential `str.replace` passes are equivalent
    to the single character-map below because no later pass consumes a
    character produced by an earlier one.
-/

/-- Substring test: `containsSub s pat` embeds Python `pat in s` for
strings (CPython substring containment). -/
def containsSub : List Char → List Char → Bool
  | [], pat => pat.isEmpty
  | c :: t, pat => pat.isPrefixOf (c :: t) || containsSub t pat

/-- Python `s.split(sep)` for a single-character separator.  Like the
Python original it always returns a nonempty list and keeps empty
components. -/
def splitOnChar (sep : Char) : List Char → List (List Char)
  | [] => [[]]
  | c :: t =>
    let r := splitOnChar sep t
    if c = sep then [] :: r
    else
      match r with
      | [] => [[c]]
      | h :: rest => (c :: h) :: rest

/-- Fuel-based worker for `pyReplace`: replaces non-overlapping
occurrences of `pat` left to right, exactly as Python `str.replace`
does for a nonempty pattern.  One unit of fuel is spent per output
step, so fuel `s.length` always suffices; the `pat ≠ []` guard only
shields the (never used by the program) empty-pattern case. -/
def replaceL : Nat → List Char → List Char → List Char → List Char
  | 0, s, _, _ => s
  | _ + 1, [], _, _ => []
  | f + 1, c :: t, pat, rep =>
    if pat ≠ [] ∧ pat.isPrefixOf (c :: t) then
      rep ++ replaceL f ((c :: t).drop pat.length) pat rep
    else
      c :: replaceL f t pat rep

/-- Python `s.replace(pat, rep)` (all occurrences, left to right). -/
def pyReplace (s pat rep : String) : String :=
  String.mk (replaceL s.data.length s.data pat.data rep.data)

/-- Every character of a replacement result comes from the original
string or from the replacement text. -/
theorem mem_replaceL (f : Nat) :
    ∀ (s pat rep : List Char) (c : Char),
      c ∈ replaceL f s pat rep → c ∈ s ∨ c ∈ rep := by
  induction f with
  | zero =>
    intro s pat rep c h
    simp only [replaceL] at h
    exact Or.inl h
  | succ f ih =>
    intro s pat rep c h
    cases s with
    | nil => simp [replaceL] at h
    | cons a t =>
      simp only [replaceL] at h
      split at h
      · rcases List.mem_append.1 h with h1 | h1
        · exact Or.inr h1
        · rcases ih _ _ _ _ h1 with h2 | h2
          · exact Or.inl (List.drop_subset _ _ h2)
          · exact Or.inr h2
      · rcases List.mem_cons.1 h with h1 | h1
        · exact Or.inl (h1 ▸ List.mem_cons_self _ _)
        · rcases ih _ _ _ _ h1 with h2 | h2
          · exact Or.inl (List.mem_cons_of_mem _ h2)
          · exact Or.inr h2

/-- Components produced by `splitOnChar` only contain characters of the
input. -/
theorem mem_splitOnChar (sep : Char) :
    ∀ (s : List Char) (part : List Char) (c : Char),
      part ∈ splitOnChar sep s → c ∈ part → c ∈ s := by
  intro s
  induction s with
  | nil =>
    intro part c hp hc
    simp [splitOnChar] at hp
    subst hp
    simp at hc
  | cons a t ih =>
    intro part c hp hc
    simp only [splitOnChar] at hp
    split at hp
    · rcases List.mem_cons.1 hp with h1 | h1
      · subst h1; simp at hc
      · exact List.mem_cons_of_mem _ (ih _ _ h1 hc)
    · cases hr : splitOnChar sep t with
      | nil => rw [hr] at hp; simp at hp; subst hp; simp at hc; simp [hc]
      | cons h rest =>
        rw [hr] at hp
        rcases List.mem_cons.1 hp with h1 | h1
        · subst h1
          rcases List.mem_cons.1 hc with h2 | h2
          · simp [h2]
          · exact List.mem_cons_of_mem _ (ih _ _ (hr ▸ List.mem_cons_self _ _) h2)
        · exact List.mem_cons_of_mem _ (ih _ _ (hr ▸ List.mem_cons_of_mem _ h1) hc)

/-- The result of `splitOnChar` is never empty (as in Python). -/
theorem splitOnChar_ne_nil (sep : Char) (s : List Char) :
    splitOnChar sep s ≠ [] := by
  cases s with
  | nil => simp [splitOnChar]
  | cons a t =>
    simp only [splitOnChar]
    split
    · simp
    · cases hr : splitOnChar sep t <;> simp

/-- One character of Python `html.escape` (with its default
`quote=True`): `&`, `<`, `>`, `"` and the apostrophe (code point 39)
are replaced by their entity references, every other character is kept.
-/
def escapeChar (c : Char) : List Char :=
  if c = '&' then ("&amp;").data
  else if c = '<' then ("&lt;").data
  else if c = '>' then ("&gt;").data
  else if c = '"' then ("&quot;").data
  else if c = Char.ofNat 39 then ("&#x27;").data
  else [c]

/-- Python `html.escape(s)` as a character map (equivalent to the five
sequential replaces of the CPython implementation, since no pass
consumes a character produced by an earlier pass). -/
def escapeL (s : List Char) : List Char :=
  (s.map escapeChar).join

/-- String-level `html.escape`. -/
def escapeHtml (s : String) : String :=
  String.mk (escapeL s.data)

/-- Escaping never produces a `<` character. -/
theorem lt_not_mem_escapeChar (c : Char) : ('<') ∉ escapeChar c := by
  unfold escapeChar
  repeat' split
  · decide
  · decide
  · decide
  · decide
  · decide
  · intro h
    have h1 := List.mem_singleton.1 h
    exact ‹¬c = '<'› h1.symm

/-- Escaped strings never contain a `<` character. -/
theorem lt_not_mem_escapeL (s : List Char) : ('<') ∉ escapeL s := by
  intro h
  rcases List.mem_join.1 h with ⟨part, hp, hc⟩
  rcases List.mem_map.1 hp with ⟨c, _, rfl⟩
  exact lt_not_mem_escapeChar c hc

/-- Decimal digit character for `d` (used by the embedding of Python
string formatting of integers). -/
def digitChar (d : Nat) : Char :=
  if d = 0 then '0'
  else if d = 1 then '1'
  else if d = 2 then '2'
  else if d = 3 then '3'
  else if d = 4 then '4'
  else if d = 5 then '5'
  else if d = 6 then '6'
  else if d = 7 then '7'
  else if d = 8 then '8'
  else '9'

/-- Fuel-based decimal digit list of a natural number (most significant
first); fuel `n + 1` always suffices. -/
def natDigitsAux : Nat → Nat → List Char → List Char
  | 0, _, acc => acc
  | f + 1, n, acc =>
    if n < 10 then digitChar (n % 10) :: acc
    else natDigitsAux f (n / 10) (digitChar (n % 10) :: acc)

/-- Decimal representation of a natural number, embedding Python
`"%s" % n` / `"{...}".format(n)` for a nonnegative integer. -/
def natRepr (n : Nat) : String :=
  String.mk (natDigitsAux (n + 1) n [])

/-- Python format specifier `0>2`: pad on the left with `0` up to
width 2. -/
def pad2 (n : Nat) : String :=
  String.mk (List.replicate (2 - (natRepr n).length) '0' ++ (natRepr n).data)

/-- Digit characters are never `<`. -/
theorem digitChar_ne_lt (d : Nat) : digitChar d ≠ '<' := by
  unfold digitChar
  repeat' split
  all_goals decide

/-- Characters of `natDigitsAux` come from the accumulator or are
digits. -/
theorem mem_natDigitsAux (f : Nat) :
    ∀ (n : Nat) (acc : List Char) (c : Char),
      c ∈ natDigitsAux f n acc → c ∈ acc ∨ ∃ d, c = digitChar d := by
  induction f with
  | zero => intro n acc c h; exact Or.inl h
  | succ f ih =>
    intro n acc c h
    simp only [natDigitsAux] at h
    split at h
    · rcases List.mem_cons.1 h with h1 | h1
      · exact Or.inr ⟨n % 10, h1⟩
      · exact Or.inl h1
    · rcases ih _ _ _ h with h1 | h1
      · rcases List.mem_cons.1 h1 with h2 | h2
        · exact Or.inr ⟨n % 10, h2⟩
        · exact Or.inl h2
      · exact Or.inr h1

/-- Decimal representations never contain a `<` character. -/
theorem lt_not_mem_natRepr (n : Nat) : ('<') ∉ (natRepr n).data := by
  intro h
  rcases mem_natDigitsAux _ _ _ _ h with h1 | ⟨d, hd⟩
  · simp at h1
  · exact digitChar_ne_lt d hd.symm

/-- Padded two-digit representations never contain a `<` character. -/
theorem lt_not_mem_pad2 (n : Nat) : ('<') ∉ (pad2 n).data := by
  intro h
  rcases List.mem_append.1 h with h1 | h1
  · rcases List.eq_of_mem_replicate h1
  · exact lt_not_mem_natRepr n h1

/-! ## Filesystem model

The downloader's on-disk state is modelled as an association list from
file names to file contents.  `writeFile` models `open(name, "w")` /
`open(name, "wb")` followed by writing `content` (creating or
truncating the file), `removeFile`/`removeFileE` model `os.remove`
(which raises when the file is absent). -/

/-- Directory state: file name to file content. -/
abbrev FS := List (String × String)

/-- Python `os.path.isfile`. -/
def fileExists (fs : FS) (name : String) : Bool :=
  fs.any (fun e => e.1 == name)

/-- Create or overwrite a file. -/
def writeFile (fs : FS) (name content : String) : FS :=
  (name, content) :: fs.filter (fun e => e.1 != name)

/-- Content of a file, if present. -/
def readFile (fs : FS) (name : String) : Option String :=
  (fs.find? (fun e => e.1 == name)).map Prod.snd

/-- Remove a file (no-op when absent; see `removeFileE` for the
raising variant). -/
def removeFile (fs : FS) (name : String) : FS :=
  match fs with
  | [] => []
  | e :: rest => if e.1 == name then removeFile rest name else e :: removeFile rest name

/-- Reading from a nonempty directory looks at the first entry first. -/
theorem readFile_cons (e : String × String) (rest : FS) (name : String) :
    readFile (e :: rest) name
      = if e.1 == name then some e.2 else readFile rest name := by
  cases hp : (e.1 == name) <;> simp [readFile, List.find?, hp]

/-- Python `os.remove`: raises `FileNotFoundError` when the file is
absent. -/
def removeFileE (fs : FS) (name : String) : Except String FS :=
  if fileExists fs name then .ok (removeFile fs name)
  else .error ("FileNotFoundError")

/-! ## Link rewriter (`SafariBooks.link_replace`, safaribooks.py lines
450-461)

`link_replace` classifies one reference attribute value and may append
to the shared image-discovery list `self.images`.  The translation
returns the rewritten reference together with the updated list. -/

/-- Python `link[-3:]`. -/
def lastThree (s : List Char) : List Char :=
  s.drop (s.length - 3)

/-- The extension test of `link_replace`: `link[-3:] in ["jpg", "jpeg",
"png"]`, embedded verbatim (including the comparison against the
four-character string `jpeg`, which a three-character slice can never
equal). -/
def extIn (s : List Char) : Bool :=
  (lastThree s == ("jpg").data) || (lastThree s == ("jpeg").data) ||
    (lastThree s == ("png").data)

/-- `SafariBooks.link_replace(link)`: the returned pair is the
rewritten reference and the updated image-discovery list `self.images`.
A Python call with an empty string would raise `IndexError` on
`link[0]`; the `[]` branch below is unreachable in the program. -/
def linkReplace (link : String) (images : List String) : String × List String :=
  match link.data with
  | [] => (link, images)
  | c0 :: _ =>
    if c0 = '/' ∧ (containsSub link.data (("cover").data) ∨
        containsSub link.data (("images").data) ∨
        containsSub link.data (("graphics").data) ∨ extIn link.data) then
      (String.mk (("Images/").data ++ (splitOnChar '/' link.data).getLastD []),
       images ++ [link])
    else if ¬ (c0 = '/') ∧ ¬ (c0 = 'h') then
      (pyReplace link (".html") (".xhtml"), images)
    else
      (link, images)

/-- Modelled from the amended claim wording: a nonempty reference that
starts with `/` and mentions one of the keywords `cover`, `images`,
`graphics`, or whose last three characters are `jpg` or `png`, is an
image reference (appended to the image list, rewritten to
`Images/<final path segment>`); otherwise a reference whose first
character is neither `/` nor `h` has every occurrence of `.html`
replaced by `.xhtml`; every other reference is returned unchanged. -/
def linkReplaceSpec (link : String) (images : List String) : String × List String :=
  match link.data with
  | [] => (link, images)
  | c0 :: _ =>
    if c0 = '/' ∧ ([("cover"), ("images"), ("graphics")].any
          (fun k => containsSub link.data k.data) ∨
        lastThree link.data = ("jpg").data ∨ lastThree link.data = ("png").data) then
      (String.mk (("Images/").data ++ (splitOnChar '/' link.data).getLastD []),
       images ++ [link])
    else if c0 ≠ '/' ∧ c0 ≠ 'h' then
      (pyReplace link (".html") (".xhtml"), images)
    else
      (link, images)

/-- A three-character slice never equals the four-character string
`jpeg`, so that alternative of the extension test is dead code. -/
theorem lastThree_ne_jpeg (s : List Char) :
    lastThree s ≠ ("jpeg").data := by
  intro he
  have hlen : (lastThree s).length ≤ 3 := by
    simp only [lastThree, List.length_drop]
    omega
  rw [he] at hlen
  simp at hlen

/-- C2 (amended part): on every nonempty reference the link rewriter
agrees with the amended specification `linkReplaceSpec`. -/
theorem c2_link_replace_amended (link : String) (images : List String)
    (h : link ≠ "") : linkReplace link images = linkReplaceSpec link images := by
  obtain ⟨data⟩ := link
  cases data with
  | nil => exact absurd rfl h
  | cons c0 t =>
    show linkReplace (String.mk (c0 :: t)) images
        = linkReplaceSpec (String.mk (c0 :: t)) images
    simp only [linkReplace, linkReplaceSpec]
    refine if_congr (and_congr_right (fun _ => ?_)) rfl (if_congr Iff.rfl rfl rfl)
    have hj := lastThree_ne_jpeg (String.mk (c0 :: t)).data
    simp only [extIn, List.any_cons, List.any_nil, Bool.or_eq_true, Bool.or_false,
      beq_iff_eq]
    constructor
    · intro hx
      tauto
    · intro hx
      tauto

/-- C2 witness: the amended equivalence at the concrete reference
`/covers/x.png` (an image reference). -/
theorem c2_link_replace_amended_witness :
    ("/covers/x.png" : String) ≠ "" ∧
      linkReplace ("/covers/x.png") [] = linkReplaceSpec ("/covers/x.png") [] :=
  ⟨by decide, c2_link_replace_amended ("/covers/x.png") [] (by decide)⟩

/-- C2 counterexample: the claim as stated fails on the code.  The
local page `hello.html` has no scheme and is not root-relative, so the
claim rewrites it to `hello.xhtml`, but the code returns it unchanged
(its first character is `h`).  The root-relative `/x.jpeg` has
extension `jpeg`, so the claim classifies it as an image reference
(`Images/x.jpeg`, recorded in the discovery list), but the code
returns it unchanged and records nothing. -/
theorem c2_link_replace_counterexample :
    (linkReplace ("hello.html") []).1 = "hello.html" ∧
      (linkReplace ("hello.html") []).1 ≠ "hello.xhtml" ∧
      List.isPrefixOf (("/").data) (("hello.html").data) = false ∧
      containsSub ("hello.html").data [':'] = false ∧
      (linkReplace ("/x.jpeg") []).1 = "/x.jpeg" ∧
      (linkReplace ("/x.jpeg") []).2 = [] ∧
      List.isPrefixOf (("/").data) (("/x.jpeg").data) = true ∧
      (splitOnChar '.' ("/x.jpeg").data).getLastD [] = ("jpeg").data := by
  refine ⟨by decide, by decide, by decide, by decide, by decide, by decide, by decide, by decide⟩

/-! ## Chapter materialization (`SafariBooks.get`, safaribooks.py lines
542-565)

`get` pops the next chapter from the queue; when the normalized target
file (the filename with `.html` replaced by `.xhtml`) already exists on
disk it neither fetches nor writes, otherwise it fetches the chapter
page, normalizes it and persists it.  The fetch-normalize pipeline
(`get_html` followed by `parse_html` and `BASE_HTML` templating) is
abstracted as the oracle `page` mapping a chapter filename to the final
written content; the second component of the result counts HTTP
chapter fetches. -/

/-- One chapter record as used by `get` (title and filename). -/
structure ChapterFile where
  title : String
  filename : String
deriving DecidableEq, Repr

/-- Target file name of a chapter: `filename.replace(".html", ".xhtml")`. -/
def xhtmlName (filename : String) : String :=
  pyReplace filename (".html") (".xhtml")

/-- The recursion of `SafariBooks.get` over the chapter queue. -/
def crawlGet (page : String → String) : List ChapterFile → FS → Nat → FS × Nat
  | [], fs, n => (fs, n)
  | c :: rest, fs, n =>
    if fileExists fs (xhtmlName c.filename) then
      crawlGet page rest fs n
    else
      crawlGet page rest (writeFile fs (xhtmlName c.filename) (page c.filename)) (n + 1)

/-- Helper: when every chapter's target file exists, the crawl changes
nothing and fetches nothing, for any starting fetch count. -/
theorem crawlGet_all_exists (page : String → String) :
    ∀ (chs : List ChapterFile) (fs : FS) (n : Nat),
      (∀ c ∈ chs, fileExists fs (xhtmlName c.filename) = true) →
      crawlGet page chs fs n = (fs, n) := by
  intro chs
  induction chs with
  | nil => intro fs n _; rfl
  | cons c rest ih =>
    intro fs n h
    have hc := h c (List.mem_cons_self _ _)
    simp only [crawlGet, hc, if_pos]
    exact ih fs n (fun d hd => h d (List.mem_cons_of_mem _ hd))

/-- C8: chapter materialization is idempotent with respect to on-disk
state.  (a) A crawl step for a chapter whose normalized target file
exists performs no HTTP fetch and no write (it only recurses on the
rest of the queue); (b) re-running the crawl over a directory where
every chapter file already exists performs zero chapter HTTP fetches
and leaves the filesystem (hence every chapter file) byte-identical. -/
theorem c8_resume_idempotent :
    (∀ (page : String → String) (c : ChapterFile) (rest : List ChapterFile)
        (fs : FS) (n : Nat),
        fileExists fs (xhtmlName c.filename) = true →
        crawlGet page (c :: rest) fs n = crawlGet page rest fs n) ∧
    (∀ (page : String → String) (chs : List ChapterFile) (fs : FS),
        (∀ c ∈ chs, fileExists fs (xhtmlName c.filename) = true) →
        crawlGet page chs fs 0 = (fs, 0)) := by
  constructor
  · intro page c rest fs n h
    simp only [crawlGet, h, if_pos]
  · intro page chs fs h
    exact crawlGet_all_exists page chs fs 0 h

/-- C8 witness: a concrete two-chapter rerun over a directory that
already holds both normalized files touches nothing and fetches
nothing. -/
theorem c8_resume_idempotent_witness :
    crawlGet (fun _ => "body")
        [⟨"One", "ch1.html"⟩, ⟨"Two", "ch2.html"⟩]
        [("ch1.xhtml", "a"), ("ch2.xhtml", "b")] 0
      = ([("ch1.xhtml", "a"), ("ch2.xhtml", "b")], 0) :=
  c8_resume_idempotent.2 (fun _ => "body")
    [⟨"One", "ch1.html"⟩, ⟨"Two", "ch2.html"⟩]
    [("ch1.xhtml", "a"), ("ch2.xhtml", "b")]
    (by decide)

/-! ## API error formatting (`Display.api_error`, safaribooks.py lines
135-149)

`api_error` inspects the error payload: when a `detail` field is
present and contains `Not found` it only formats a message; in every
other case it calls `os.remove(COOKIES_FILE)` before building the
out-of-session message.  The payload is modelled by the observations
the code makes of it: `detail` is `some d` when `"detail" in response`
holds with value `d`, otherwise `none`.  The message text follows the
source, including the operator-precedence quirk of line 145 by which
the `--cred` hint is only appended in the no-detail case (apostrophes
of the original message text are omitted). -/

/-- The persisted cookies file name. -/
def cookiesFile : String := "cookies.json"

/-- ANSI escbook colour codes used by the message. -/
def shYellow : String := "\x1b[33m"

/-- ANSI reset code. -/
def shDefault : String := "\x1b[0m"

/-- Message for the `Not found` branch. -/
def apiErrorMsgNotFound : String :=
  "API: books not present in Safari Books Online.\n" ++
    "    The book identifier are the digits that you can find in the URL:\n" ++
    "    `https://www.safaribooksonline.com/library/view/book-name/XXXXXXXXXXXXX/`"

/-- Message for the out-of-session branch when a detail is present
(per the precedence of line 145, nothing further is appended). -/
def apiErrorMsgOut (d : String) : String :=
  "API: Out-of-Session (" ++ d ++ ").\n"

/-- Message for the out-of-session branch without a detail field. -/
def apiErrorMsgNoDetail : String :=
  "API: " ++ shYellow ++ "[+]" ++ shDefault ++
    " Use the `--cred` option in order to perform the auth login to Safari Books Online."

/-- `Display.api_error(response)`: returns the formatted message and
the filesystem after the side effect; `os.remove` raises (`.error`)
when the cookies file is absent. -/
def apiError (detail : Option String) (fs : FS) : Except String (String × FS) :=
  match detail with
  | some d =>
    if containsSub d.data (("Not found").data) then
      .ok (apiErrorMsgNotFound, fs)
    else
      (removeFileE fs cookiesFile).map (fun fs2 => (apiErrorMsgOut d, fs2))
  | none =>
    (removeFileE fs cookiesFile).map (fun fs2 => (apiErrorMsgNoDetail, fs2))

/-- C10: formatting an API error deletes the persisted cookies file
exactly when the `detail` field is absent or does not contain
`Not found`; the filesystem is untouched in the `Not found` case, and
the deletion touches no other file. -/
theorem c10_api_error_cookie_removal :
    (∀ (fs : FS) (d : String), fileExists fs cookiesFile = true →
        containsSub d.data (("Not found").data) = false →
        apiError (some d) fs = .ok (apiErrorMsgOut d, removeFile fs cookiesFile)) ∧
    (∀ (fs : FS), fileExists fs cookiesFile = true →
        apiError none fs = .ok (apiErrorMsgNoDetail, removeFile fs cookiesFile)) ∧
    (∀ (fs : FS) (d : String), containsSub d.data (("Not found").data) = true →
        apiError (some d) fs = .ok (apiErrorMsgNotFound, fs)) ∧
    (∀ (fs : FS) (name : String), name ≠ cookiesFile →
        readFile (removeFile fs cookiesFile) name = readFile fs name) := by
  refine ⟨?_, ?_, ?_, ?_⟩
  · intro fs d hex hnf
    simp [apiError, hnf, removeFileE, hex, Except.map]
  · intro fs hex
    simp [apiError, removeFileE, hex, Except.map]
  · intro fs d hnf
    simp [apiError, hnf]
  · intro fs name hne
    induction fs with
    | nil => rfl
    | cons e rest ih =>
      cases hc : (e.1 == cookiesFile)
      · simp only [removeFile, hc, Bool.false_eq_true, if_false]
        rw [readFile_cons, readFile_cons]
        cases hq : (e.1 == name)
        · simp only [hq, Bool.false_eq_true, if_false]
          exact ih
        · simp only [hq, if_true]
      · have hqn : (e.1 == name) = false := by
          have he := eq_of_beq hc
          simp only [beq_eq_false_iff_ne, ne_eq, he]
          exact fun hcontra => hne hcontra.symm
        simp only [removeFile, hc, if_true]
        rw [readFile_cons, hqn]
        simp only [Bool.false_eq_true, if_false]
        exact ih

/-- C10 witness: with a cookies file on disk, a detail-free error
payload removes it, a `Not found` payload leaves the filesystem
untouched, and other files survive the removal. -/
theorem c10_api_error_cookie_removal_witness :
    apiError none [("cookies.json", "jar"), ("other.txt", "x")]
        = .ok (apiErrorMsgNoDetail, [("other.txt", "x")]) ∧
      apiError (some "Not found here") [("cookies.json", "jar")]
        = .ok (apiErrorMsgNotFound, [("cookies.json", "jar")]) ∧
      readFile (removeFile [("cookies.json", "jar"), ("other.txt", "x")] cookiesFile)
          ("other.txt") = readFile [("cookies.json", "jar"), ("other.txt", "x")] ("other.txt") := by
  refine ⟨?_, ?_, ?_⟩
  · have h := c10_api_error_cookie_removal.2.1
      [("cookies.json", "jar"), ("other.txt", "x")] (by decide)
    simpa [removeFile, cookiesFile] using h
  · exact c10_api_error_cookie_removal.2.2.1 [("cookies.json", "jar")] ("Not found here")
      (by decide)
  · exact c10_api_error_cookie_removal.2.2.2
      [("cookies.json", "jar"), ("other.txt", "x")] ("other.txt") (by decide)

/-! ## Stylesheet discovery and link numbering (`SafariBooks.parse_html`,
safaribooks.py lines 476-489, and `SafariBooks._thread_download_css`,
line 568)

For each `<link rel='stylesheet'>` of a chapter, `parse_html` resolves
the stylesheet URL, appends it to the shared discovery list `self.css`
when new, increments the per-chapter counter `stylesheet_count` (which
restarts at zero for every chapter) and emits a local link tag numbered
by that per-chapter counter.  The asset downloader, by contrast, names
the file on disk after the zero-based global index `self.css.index(url)`.
URL resolution (`urljoin`) happens before this loop and is irrelevant to
the numbering, so the loop takes the resolved URLs as input. -/

/-- The local link tag emitted for counter value `count`:
Python `"<link href=\"Styles/Style{0:0>2}.css\" rel=\"stylesheet\"
type=\"text/css\" />\n".format(count)`. -/
def cssLinkTag (count : Nat) : String :=
  "<link href=\"Styles/Style" ++ pad2 count ++
    ".css\" rel=\"stylesheet\" type=\"text/css\" />\n"

/-- The stylesheet loop of `parse_html`: folds over the chapter's
resolved stylesheet URLs, threading the shared discovery list
`self.css` and the per-chapter counter, accumulating `page_css`. -/
def parseHtmlCssLoop : List String → List String → Nat → String → String × List String
  | [], css, _, acc => (acc, css)
  | u :: rest, css, count, acc =>
    let css2 := if css.contains u then css else css ++ [u]
    parseHtmlCssLoop rest css2 (count + 1) (acc ++ cssLinkTag (count + 1))

/-- The whole stylesheet-link section of `parse_html` for one chapter:
given the chapter's resolved stylesheet URLs and the discovery list so
far, returns the emitted `page_css` block and the updated discovery
list. -/
def parseHtmlStylesheets (cssUrls css0 : List String) : String × List String :=
  parseHtmlCssLoop cssUrls css0 0 ""

/-- File name used by `_thread_download_css` for a stylesheet URL:
`"Style{0:0>2}.css".format(self.css.index(url))` (zero-based global
discovery index). -/
def cssFileName (css : List String) (url : String) : String :=
  "Style" ++ pad2 (css.indexOf url) ++ ".css"

/-- C1 evaluation at the failing input: chapter one lists stylesheets
A, B; chapter two lists the shared stylesheet B again.  The code emits
`Style02.css` for B in chapter one but `Style01.css` in chapter two
(the counter restarts per chapter), even though B's global first
discovery position is 2 in both, and the downloader stores B on disk
as `Style01.css` (zero-based global index) - matching neither emitted
link.  This refutes the claim that the emitted number is the global
first-discovery position, stable across chapters. -/
theorem c1_stylesheet_numbering_code_eval :
    parseHtmlStylesheets [("https://h/A.css"), ("https://h/B.css")] []
        = (cssLinkTag 1 ++ cssLinkTag 2, [("https://h/A.css"), ("https://h/B.css")]) ∧
      parseHtmlStylesheets [("https://h/B.css")]
          [("https://h/A.css"), ("https://h/B.css")]
        = (cssLinkTag 1, [("https://h/A.css"), ("https://h/B.css")]) ∧
      cssLinkTag 1 ≠ cssLinkTag 2 ∧
      containsSub (cssLinkTag 2).data (("Style02.css").data) = true ∧
      containsSub (cssLinkTag 1).data (("Style01.css").data) = true ∧
      ([("https://h/A.css"), ("https://h/B.css")].indexOf ("https://h/B.css")) + 1 = 2 ∧
      cssFileName [("https://h/A.css"), ("https://h/B.css")] ("https://h/B.css")
        = "Style01.css" := by
  refine ⟨?_, ?_, by decide, by decide, by decide, by decide, by decide⟩
  · decide
  · decide

/-! ## TOC flattening (`SafariBooks.parse_toc`, safaribooks.py lines
713-734)

The service's nested TOC is a list of nodes, each carrying `id`,
`fragment`, `label`, `href`, `depth` and a children list.  The forest
is embedded as a first-order inductive in which a `cons` cell carries
the head node's fields, its children forest and the remaining siblings
(isomorphic to the list-of-dicts shape, and keeping every recursion
structural so that concrete trees evaluate). -/

/-- A TOC forest: `nil` is the empty node list, `cons id fragment
label href depth children rest` is a node followed by its siblings. -/
inductive TocForest where
  | nil : TocForest
  | cons (id fragment label href : String) (depth : Int)
      (children : TocForest) (rest : TocForest) : TocForest
deriving DecidableEq, Repr

/-- Total number of nodes of a forest. -/
def countNodes : TocForest → Nat
  | .nil => 0
  | .cons _ _ _ _ _ ch rest => 1 + countNodes ch + countNodes rest

/-- The `depth` attributes of all nodes, in pre-order. -/
def depthsList : TocForest → List Int
  | .nil => []
  | .cons _ _ _ _ d ch rest => d :: (depthsList ch ++ depthsList rest)

/-- `SafariBooks.parse_toc(l, c, mx)`: returns the accumulated navMap
markup, the final `playOrder` counter and the running maximum depth.
Each list element increments the counter, updates the maximum, emits
its `navPoint` (id is `fragment` when nonempty, else `id`; `href` has
`.html` replaced by `.xhtml`; the label is HTML-escaped), recurses into
a nonempty children list, and closes the `navPoint`. -/
def parseToc : TocForest → Nat → Int → String × Nat × Int
  | .nil, c, mx => ("", c, mx)
  | .cons i frag lab href depth ch rest, c, mx =>
    let c1 := c + 1
    let mx1 := if depth > mx then depth else mx
    let r1 := "<navPoint id=\"" ++ (if frag.length ≠ 0 then frag else i) ++
      "\" playOrder=\"" ++ natRepr c1 ++ "\">" ++
      "<navLabel><text>" ++ escapeHtml lab ++ "</text></navLabel>" ++
      "<content src=\"" ++ pyReplace href (".html") (".xhtml") ++ "\"/>"
    let inner :=
      match ch with
      | .nil => ("", c1, mx1)
      | _ => parseToc ch c1 mx1
    let rs := parseToc rest inner.2.1 inner.2.2
    (r1 ++ inner.1 ++ ("</navPoint>\n") ++ rs.1, rs.2.1, rs.2.2)

/-- Instrumented variant of the very same traversal that records the
`playOrder` value assigned to each node, in visit order, together with
the final counter.  It exists only to let theorems speak about the
sequence of assigned numbers; its recursion mirrors `parseToc` line by
line. -/
def parseTocOrders : TocForest → Nat → List Nat × Nat
  | .nil, c => ([], c)
  | .cons _ _ _ _ _ ch rest, c =>
    let c1 := c + 1
    let inner :=
      match ch with
      | .nil => (([] : List Nat), c1)
      | _ => parseTocOrders ch c1
    let rs := parseTocOrders rest inner.2
    (c1 :: (inner.1 ++ rs.1), rs.2)

/-- Unfolding equation of `parseToc` on a nonempty forest, with the
children `match` resolved (an empty children list behaves like the
recursive call on the empty forest). -/
theorem parseToc_cons (i frag lab href : String) (depth : Int)
    (ch rest : TocForest) (c : Nat) (mx : Int) :
    parseToc (.cons i frag lab href depth ch rest) c mx
      = (("<navPoint id=\"" ++ (if frag.length ≠ 0 then frag else i) ++
          "\" playOrder=\"" ++ natRepr (c + 1) ++ "\">" ++
          "<navLabel><text>" ++ escapeHtml lab ++ "</text></navLabel>" ++
          "<content src=\"" ++ pyReplace href (".html") (".xhtml") ++ "\"/>") ++
          (parseToc ch (c + 1) (if depth > mx then depth else mx)).1 ++
          ("</navPoint>\n") ++
          (parseToc rest
            (parseToc ch (c + 1) (if depth > mx then depth else mx)).2.1
            (parseToc ch (c + 1) (if depth > mx then depth else mx)).2.2).1,
        (parseToc rest
          (parseToc ch (c + 1) (if depth > mx then depth else mx)).2.1
          (parseToc ch (c + 1) (if depth > mx then depth else mx)).2.2).2.1,
        (parseToc rest
          (parseToc ch (c + 1) (if depth > mx then depth else mx)).2.1
          (parseToc ch (c + 1) (if depth > mx then depth else mx)).2.2).2.2) := by
  cases ch <;> rfl

/-- Unfolding equation of `parseTocOrders` on a nonempty forest. -/
theorem parseTocOrders_cons (i frag lab href : String) (depth : Int)
    (ch rest : TocForest) (c : Nat) :
    parseTocOrders (.cons i frag lab href depth ch rest) c
      = ((c + 1) :: ((parseTocOrders ch (c + 1)).1 ++
          (parseTocOrders rest (parseTocOrders ch (c + 1)).2).1),
        (parseTocOrders rest (parseTocOrders ch (c + 1)).2).2) := by
  cases ch <;> rfl

/-- The counter of `parseToc` advances by exactly the number of nodes. -/
theorem parseToc_counter (t : TocForest) :
    ∀ (c : Nat) (mx : Int), (parseToc t c mx).2.1 = c + countNodes t := by
  induction t with
  | nil => intro c mx; simp [parseToc, countNodes]
  | cons i frag lab href depth ch rest ihch ihrest =>
    intro c mx
    rw [parseToc_cons]
    dsimp only
    rw [ihrest, ihch, countNodes]
    omega

/-- The assigned `playOrder` values are consecutive from `c + 1`. -/
theorem parseTocOrders_range (t : TocForest) :
    ∀ (c : Nat), parseTocOrders t c
      = (List.range' (c + 1) (countNodes t) 1, c + countNodes t) := by
  induction t with
  | nil => intro c; simp [parseTocOrders, countNodes]
  | cons i frag lab href depth ch rest ihch ihrest =>
    intro c
    rw [parseTocOrders_cons, ihch]
    dsimp only
    rw [ihrest]
    simp only [Prod.mk.injEq]
    constructor
    · rw [countNodes]
      have e1 : 1 + countNodes ch + countNodes rest
          = (countNodes ch + countNodes rest) + 1 := by omega
      rw [e1, List.range'_succ]
      congr 1
      have e2 : c + 1 + countNodes ch + 1 = c + 1 + 1 + 1 * countNodes ch := by omega
      rw [e2, List.range'_append]
      congr 1
      omega
    · rw [countNodes]
      omega

/-- The maximum tracked by `parseToc` is the fold of `max` over the
pre-order depth list. -/
theorem parseToc_max (t : TocForest) :
    ∀ (c : Nat) (mx : Int), (parseToc t c mx).2.2 = (depthsList t).foldl max mx := by
  have hite : ∀ (d m : Int), (if d > m then d else m) = max m d := by
    intro d m
    rcases le_or_lt d m with h | h
    · rw [if_neg (by omega), max_eq_left h]
    · rw [if_pos h, max_eq_right (le_of_lt h)]
  induction t with
  | nil => intro c mx; simp [parseToc, depthsList]
  | cons i frag lab href depth ch rest ihch ihrest =>
    intro c mx
    rw [parseToc_cons]
    dsimp only
    rw [ihrest, ihch, depthsList]
    rw [List.foldl_cons, List.foldl_append, hite]

/-- The seed of a `max` fold bounds the result from below. -/
theorem le_foldl_max (ds : List Int) : ∀ (a : Int), a ≤ ds.foldl max a := by
  induction ds with
  | nil => intro a; simp
  | cons d t ih =>
    intro a
    calc a ≤ max a d := le_max_left a d
    _ ≤ t.foldl max (max a d) := ih (max a d)
    _ = (d :: t).foldl max a := by simp

/-- Every element of the list bounds a `max` fold from below. -/
theorem mem_le_foldl_max (ds : List Int) :
    ∀ (a : Int) (d : Int), d ∈ ds → d ≤ ds.foldl max a := by
  induction ds with
  | nil => intro a d h; simp at h
  | cons e t ih =>
    intro a d h
    rcases List.mem_cons.1 h with h1 | h1
    · subst h1
      calc d ≤ max a d := le_max_right a d
      _ ≤ t.foldl max (max a d) := le_foldl_max t (max a d)
      _ = (d :: t).foldl max a := by simp
    · simpa using ih (max a e) d h1

/-- A `max` fold returns its seed or a member of the list. -/
theorem foldl_max_mem (ds : List Int) :
    ∀ (a : Int), ds.foldl max a = a ∨ ds.foldl max a ∈ ds := by
  induction ds with
  | nil => intro a; simp
  | cons e t ih =>
    intro a
    rcases ih (max a e) with h | h
    · rcases max_choice a e with h2 | h2 <;> simp only [List.foldl_cons]
      · rw [h, h2]; exact Or.inl rfl
      · rw [h, h2]; exact Or.inr (List.mem_cons_self _ _)
    · simp only [List.foldl_cons]
      exact Or.inr (List.mem_cons_of_mem _ h)

/-- Appending the empty string is the identity. -/
theorem string_append_nil (s : String) : s ++ ("") = s := by
  cases s with
  | mk d =>
    show String.mk (d ++ []) = String.mk d
    rw [List.append_nil]

/-- The concrete two-root TOC tree of the specification example:
`[depth 1 [depth 2 []], depth 1 []]`, with simple ids, labels and
hrefs; the inner node carries a nonempty fragment. -/
def tocExample : TocForest :=
  .cons ("n1") ("") ("L1") ("a.html") 1
    (.cons ("n2") ("f2") ("L2") ("b.html") 2 .nil .nil)
    (.cons ("n3") ("") ("L3") ("c.html") 1 .nil .nil)

/-- C5: `parse_toc` is a pre-order traversal. (a) The sequence of
assigned `playOrder` values is consecutive starting at `c + 1` (so at
1 for the top-level call), one per node in visit order, and the
returned counter advances by the node count; (b) on a nonempty tree
with nonnegative depth attributes the returned `mx` is the maximum
`depth` attribute seen over all nodes; (c) a node's emitted id is its
fragment when nonempty, else its own id (leaf-node markup spelled
out); (d) on the example tree `[depth 1 [depth 2 []], depth 1 []]` the
playOrder sequence is `[1, 2, 3]`, the counter ends at 3 and the
returned maximum depth is 2. -/
theorem c5_parse_toc_preorder :
    (∀ (t : TocForest) (c : Nat) (mx : Int),
        (parseTocOrders t c).1 = List.range' (c + 1) (countNodes t) 1 ∧
          (parseToc t c mx).2.1 = c + countNodes t) ∧
      (∀ (t : TocForest), depthsList t ≠ [] → (∀ d ∈ depthsList t, 0 ≤ d) →
          (parseToc t 0 0).2.2 ∈ depthsList t ∧
            ∀ d ∈ depthsList t, d ≤ (parseToc t 0 0).2.2) ∧
      (∀ (i frag lab href : String) (depth : Int) (c : Nat) (mx : Int),
          (parseToc (.cons i frag lab href depth .nil .nil) c mx).1
            = ("<navPoint id=\"" ++ (if frag.length ≠ 0 then frag else i) ++
                "\" playOrder=\"" ++ natRepr (c + 1) ++ "\">" ++
                "<navLabel><text>" ++ escapeHtml lab ++ "</text></navLabel>" ++
                "<content src=\"" ++ pyReplace href (".html") (".xhtml") ++ "\"/>") ++
              ("</navPoint>\n")) ∧
      parseToc tocExample 0 0
        = ("<navPoint id=\"n1\" playOrder=\"1\"><navLabel><text>L1</text></navLabel>" ++
            "<content src=\"a.xhtml\"/><navPoint id=\"f2\" playOrder=\"2\">" ++
            "<navLabel><text>L2</text></navLabel><content src=\"b.xhtml\"/></navPoint>\n" ++
            "</navPoint>\n<navPoint id=\"n3\" playOrder=\"3\">" ++
            "<navLabel><text>L3</text></navLabel><content src=\"c.xhtml\"/></navPoint>\n",
            3, 2) ∧
      (parseTocOrders tocExample 0).1 = [1, 2, 3] := by
  refine ⟨?_, ?_, ?_, by decide, by decide⟩
  · intro t c mx
    constructor
    · rw [parseTocOrders_range]
    · exact parseToc_counter t c mx
  · intro t hne hnn
    have hm := parseToc_max t 0 0
    constructor
    · rcases foldl_max_mem (depthsList t) 0 with h | h
      · rw [hm, h]
        cases hd : depthsList t with
        | nil => exact absurd hd hne
        | cons d ds =>
          have hmem : d ∈ depthsList t := by rw [hd]; exact List.mem_cons_self _ _
          have h1 : d ≤ (depthsList t).foldl max 0 := mem_le_foldl_max _ 0 d hmem
          rw [h] at h1
          have h2 : 0 ≤ d := hnn d hmem
          have h3 : d = 0 := le_antisymm h1 h2
          rw [← h3]
          exact List.mem_cons_self _ _
      · rw [hm]
        exact h
    · intro d hd
      rw [hm]
      exact mem_le_foldl_max _ 0 d hd
  · intro i frag lab href depth c mx
    rw [parseToc_cons]
    dsimp only
    simp only [parseToc]
    rw [string_append_nil, string_append_nil]

/-- C5 witness: the maximum-depth part of the theorem applied to the
concrete example tree, with its hypotheses discharged by evaluation. -/
theorem c5_parse_toc_preorder_witness :
    depthsList tocExample ≠ [] ∧ (∀ d ∈ depthsList tocExample, 0 ≤ d) ∧
      ((parseToc tocExample 0 0).2.2 ∈ depthsList tocExample ∧
        ∀ d ∈ depthsList tocExample, d ≤ (parseToc tocExample 0 0).2.2) :=
  ⟨by decide, by decide, c5_parse_toc_preorder.2.1 tocExample (by decide) (by decide)⟩

/-! ## Chapter-manifest retrieval (`SafariBooks.get_book_chapters`,
safaribooks.py lines 408-427)

Each recursive call fetches one page of the paginated chapter API.  The
code observes the decoded JSON through: `isinstance(response, dict)`,
`len(response.keys())`, `"results" in response`, `response["results"]`
and the truthiness of `response["next"]`; a page response is modelled
by exactly those observations.  The input list holds the successive
page responses the service would serve; the (unreachable for a
well-behaved transport) empty tail models a failed request, which
`display.exit` also turns into a fatal error.  Chapter records are
compared by Python dict equality, modelled by structural equality of
`ChapterFile`. -/

/-- One page response as observed by `get_book_chapters`. -/
structure RawPage where
  isDict : Bool
  keys : List String
  results : List ChapterFile
  nextIsNull : Bool
deriving DecidableEq, Repr

/-- Python `"cover." in c["filename"]`. -/
def isCoverCh (c : ChapterFile) : Bool :=
  containsSub c.filename.data (("cover.").data)

/-- The cover-fronting of one page: `result` collects the cover
records, then each of them is deleted from the page's result list by
`del response["results"][response["results"].index(c)]` (remove the
first equal element), and the remainder is appended. -/
def coverFirst (results : List ChapterFile) : List ChapterFile :=
  let covers := results.filter isCoverCh
  covers ++ covers.foldl List.erase results

/-- `get_book_chapters`: validates each page (dict with more than one
key, then a nonempty `results` member), fronts the covers of the page
slice, and recurses while `response["next"]` is truthy. -/
def getBookChapters : List RawPage → Except String (List ChapterFile)
  | [] => .error ("Crawler: no page response")
  | r :: rest =>
    if r.isDict = false ∨ r.keys.length = 1 then
      .error ("API: error payload")
    else if ("results") ∉ r.keys ∨ r.results.length = 0 then
      .error ("API: unable to retrieve book chapters.")
    else if r.nextIsNull then
      .ok (coverFirst r.results)
    else
      match getBookChapters rest with
      | .ok tail => .ok (coverFirst r.results ++ tail)
      | .error e => .error e

/-- One-step unfolding of `getBookChapters` on a nonempty page list. -/
theorem getBookChapters_cons (r : RawPage) (rest : List RawPage) :
    getBookChapters (r :: rest)
      = if r.isDict = false ∨ r.keys.length = 1 then
          .error ("API: error payload")
        else if ("results") ∉ r.keys ∨ r.results.length = 0 then
          .error ("API: unable to retrieve book chapters.")
        else if r.nextIsNull then
          .ok (coverFirst r.results)
        else
          match getBookChapters rest with
          | .ok tail => .ok (coverFirst r.results ++ tail)
          | .error e => .error e := rfl

/-- Folding first-occurrence deletion of a list of non-`a` elements
over `a :: l` keeps the head. -/
theorem foldl_erase_cons_ne {α : Type} [DecidableEq α] (a : α) :
    ∀ (cs : List α) (l : List α), (∀ c ∈ cs, c ≠ a) →
      cs.foldl List.erase (a :: l) = a :: cs.foldl List.erase l := by
  intro cs
  induction cs with
  | nil => intro l _; rfl
  | cons c cs ih =>
    intro l h
    have hca : c ≠ a := h c (List.mem_cons_self _ _)
    have hstep : (a :: l).erase c = a :: l.erase c := by
      refine List.erase_cons_tail ?_
      simp only [beq_iff_eq]
      exact fun he => hca he.symm
    simp only [List.foldl_cons, hstep]
    exact ih (l.erase c) (fun d hd => h d (List.mem_cons_of_mem _ hd))

/-- Deleting, in order, the first occurrence of every `p`-element of
`l` from `l` leaves exactly the non-`p` elements, in order.  This is
the semantics of the `del .. .index(..)` loop of
`get_book_chapters` (membership of the filtered list determines `p` of
the deleted value, since equal records have equal filenames). -/
theorem foldl_erase_filter {α : Type} [DecidableEq α] (p : α → Bool) :
    ∀ (l : List α), (l.filter p).foldl List.erase l = l.filter (fun a => !p a) := by
  intro l
  induction l with
  | nil => rfl
  | cons a t ih =>
    cases hp : p a
    · rw [List.filter_cons_of_neg (by simp [hp])]
      have hne : ∀ c ∈ t.filter p, c ≠ a := by
        intro c hc he
        have hpc := List.of_mem_filter hc
        rw [he, hp] at hpc
        exact absurd hpc (by simp)
      rw [foldl_erase_cons_ne a _ _ hne, ih,
        List.filter_cons_of_pos (by simp [hp])]
    · rw [List.filter_cons_of_pos (by simp [hp])]
      simp only [List.foldl_cons, List.erase_cons_head]
      rw [ih, List.filter_cons_of_neg (by simp [hp])]

/-- The page slice in specification form: covers first (relative order
preserved), then the non-cover records in service order. -/
theorem coverFirst_eq (results : List ChapterFile) :
    coverFirst results
      = results.filter isCoverCh ++ results.filter (fun c => !isCoverCh c) := by
  show (results.filter isCoverCh) ++
      (results.filter isCoverCh).foldl List.erase results = _
  rw [foldl_erase_filter]

/-- Well-formedness of a page as the claim states it: a dict with more
than a single top-level key, holding a nonempty `results` list. -/
def goodPage (r : RawPage) : Prop :=
  r.isDict = true ∧ r.keys.length ≠ 1 ∧ ("results") ∈ r.keys ∧ r.results ≠ []

instance goodPageDecidable (r : RawPage) : Decidable (goodPage r) := by
  unfold goodPage
  infer_instance

/-- C3: on a well-formed properly terminated run of pages (every page
good, every page but the last carrying a next link, the last one not),
`get_book_chapters` returns the concatenation, in fetch order, of the
per-page slices, where each page's slice has its cover records (those
whose filename contains `cover.`) moved to the front, preserving
relative order. -/
theorem c3_chapter_pagination_merge :
    ∀ (rs : List RawPage),
      (∀ r ∈ rs, goodPage r) →
      (∀ r ∈ rs.dropLast, r.nextIsNull = false) →
      (rs.getLastD ⟨true, [], [], true⟩).nextIsNull = true →
      rs ≠ [] →
      getBookChapters rs
        = .ok ((rs.map (fun r => r.results.filter isCoverCh ++
            r.results.filter (fun c => !isCoverCh c))).join) := by
  intro rs
  induction rs with
  | nil => intro _ _ _ hne; exact absurd rfl hne
  | cons r rest ih =>
    intro hg hdrop hlast _
    obtain ⟨h1, h2, h3, h4⟩ := hg r (List.mem_cons_self _ _)
    rw [getBookChapters_cons]
    have hnot1 : ¬ (r.isDict = false ∨ r.keys.length = 1) := by
      rintro (hx | hx)
      · rw [h1] at hx
        exact absurd hx (by simp)
      · exact h2 hx
    have hnot2 : ¬ (("results") ∉ r.keys ∨ r.results.length = 0) := by
      rintro (hx | hx)
      · exact hx h3
      · exact h4 (List.length_eq_zero.mp hx)
    rw [if_neg hnot1, if_neg hnot2]
    cases hrest : rest with
    | nil =>
      subst hrest
      have hnull : r.nextIsNull = true := by
        simpa [List.getLastD] using hlast
      rw [if_pos hnull, coverFirst_eq]
      simp
    | cons r2 rest2 =>
      subst hrest
      have hnull : r.nextIsNull = false := by
        refine hdrop r ?_
        rw [List.dropLast_cons₂]
        exact List.mem_cons_self _ _
      rw [if_neg (by simp [hnull])]
      have hlast2 : ((r2 :: rest2).getLastD ⟨true, [], [], true⟩).nextIsNull = true := by
        rw [List.getLastD_cons] at hlast
        rw [List.getLastD_cons] at hlast
        rw [List.getLastD_cons]
        exact hlast
      rw [ih (fun x hx => hg x (List.mem_cons_of_mem _ hx))
        (by
          intro x hx
          refine hdrop x ?_
          rw [List.dropLast_cons₂]
          exact List.mem_cons_of_mem _ hx)
        hlast2 (by simp)]
      rw [coverFirst_eq]
      simp

/-- C3 witness: the specification example pages
`[{results: [a, b(cover)], next: url}, {results: [c], next: null}]`
merge to `[b, a, c]` (the cover of page one fronted within its own
slice). -/
theorem c3_chapter_pagination_merge_witness :
    getBookChapters
        [⟨true, [("count"), ("results"), ("next")],
          [⟨"A", "a.html"⟩, ⟨"Cover", "cover.html"⟩], false⟩,
         ⟨true, [("count"), ("results"), ("next")], [⟨"C", "c.html"⟩], true⟩]
      = .ok [⟨"Cover", "cover.html"⟩, ⟨"A", "a.html"⟩, ⟨"C", "c.html"⟩] := by
  have h := c3_chapter_pagination_merge
    [⟨true, [("count"), ("results"), ("next")],
      [⟨"A", "a.html"⟩, ⟨"Cover", "cover.html"⟩], false⟩,
     ⟨true, [("count"), ("results"), ("next")], [⟨"C", "c.html"⟩], true⟩]
    (by decide) (by decide) (by decide) (by decide)
  rw [h]
  exact congrArg Except.ok (by decide)

/-- Boolean page well-formedness, mirroring the checks of
`get_book_chapters`: a dict, more than one key, with a nonempty
`results` member. -/
def goodPageB (r : RawPage) : Bool :=
  r.isDict && r.keys.length != 1 && r.keys.contains ("results") &&
    r.results.length != 0

/-- The default page used by positional lookup in statements. -/
def dummyPage : RawPage := ⟨true, [], [], true⟩

/-- C4 (amended): chapter-manifest retrieval succeeds exactly when
some prefix of the served pages is entirely well-formed, its last page
has a null `next` and the earlier ones do not; equivalently, it fails
fatally (no retry is modelled anywhere) as soon as ANY fetched page -
not only the first - is malformed or yields zero results. -/
theorem c4_retrieval_failure_amended (rs : List RawPage) :
    (getBookChapters rs).isOk = true ↔
      ∃ n, n < rs.length ∧ ((rs.take (n + 1)).all goodPageB) = true ∧
        (rs.getD n dummyPage).nextIsNull = true ∧
        ((rs.take n).all (fun r => !r.nextIsNull)) = true := by
  induction rs with
  | nil =>
    simp [getBookChapters, Except.isOk, Except.toBool]
  | cons r rest ih =>
    rw [getBookChapters_cons]
    by_cases hbad1 : r.isDict = false ∨ r.keys.length = 1
    · rw [if_pos hbad1]
      constructor
      · intro hx
        exact absurd hx (by simp [Except.isOk, Except.toBool])
      · rintro ⟨n, hn, hall, h2, h3⟩
        exfalso
        rw [List.take_succ_cons, List.all_cons, Bool.and_eq_true] at hall
        have hgr : goodPageB r = true := hall.1
        rcases hbad1 with hx | hx
        · simp [goodPageB, hx] at hgr
        · simp [goodPageB, hx] at hgr
    · by_cases hbad2 : ("results") ∉ r.keys ∨ r.results.length = 0
      · rw [if_neg hbad1, if_pos hbad2]
        constructor
        · intro hx
          exact absurd hx (by simp [Except.isOk, Except.toBool])
        · rintro ⟨n, hn, hall, h2, h3⟩
          exfalso
          rw [List.take_succ_cons, List.all_cons, Bool.and_eq_true] at hall
          have hgr : goodPageB r = true := hall.1
          rcases hbad2 with hx | hx
          · have : r.keys.contains ("results") = true := by
              simp [goodPageB] at hgr
              tauto
            exact hx (List.elem_iff.mp this)
          · simp [goodPageB, hx] at hgr
      · have hgr : goodPageB r = true := by
          push_neg at hbad1 hbad2
          simp only [goodPageB, Bool.and_eq_true, bne_iff_ne, ne_eq]
          refine ⟨⟨⟨?_, ?_⟩, ?_⟩, ?_⟩
          · cases hx : r.isDict
            · exact absurd hx hbad1.1
            · rfl
          · exact hbad1.2
          · exact List.elem_iff.mpr hbad2.1
          · exact hbad2.2
        rw [if_neg hbad1, if_neg hbad2]
        by_cases hnull : r.nextIsNull = true
        · rw [if_pos hnull]
          constructor
          · intro _
            refine ⟨0, by simp, ?_, by simpa using hnull, by simp⟩
            simpa using hgr
          · intro _
            rfl
        · rw [if_neg hnull]
          have hmatch : ∀ (e : Except String (List ChapterFile)) (s : List ChapterFile),
              (match e with
               | .ok tail => Except.ok (s ++ tail)
               | .error er => Except.error er).isOk = e.isOk := by
            intro e s
            cases e <;> rfl
          rw [hmatch, ih]
          have hnf : r.nextIsNull = false := by
            cases hx : r.nextIsNull
            · rfl
            · exact absurd hx hnull
          constructor
          · rintro ⟨n, hn, hall, h2, h3⟩
            refine ⟨n + 1, by simp; omega, ?_, ?_, ?_⟩
            · rw [List.take_succ_cons, List.all_cons]
              simp only [Bool.and_eq_true]
              exact ⟨hgr, hall⟩
            · simpa using h2
            · rw [List.take_succ_cons, List.all_cons]
              simp only [Bool.and_eq_true]
              exact ⟨by simp [hnf], h3⟩
          · rintro ⟨n, hn, hall, h2, h3⟩
            cases n with
            | zero =>
              exfalso
              simp only [List.getD_cons_zero] at h2
              exact hnull h2
            | succ m =>
              refine ⟨m, ?_, ?_, ?_, ?_⟩
              · simp at hn
                omega
              · rw [List.take_succ_cons, List.all_cons, Bool.and_eq_true] at hall
                exact hall.2
              · simpa using h2
              · rw [List.take_succ_cons, List.all_cons, Bool.and_eq_true] at h3
                exact h3.2

/-- C4 counterexample: the claim as stated is false.  Both pages are
well-formed dicts with three top-level keys and the first page has a
nonempty result list, so the claim predicts success; but the second
fetched page yields zero results, and the code fails fatally there. -/
theorem c4_retrieval_failure_counterexample :
    (getBookChapters
        [⟨true, [("count"), ("results"), ("next")], [⟨"A", "a.html"⟩], false⟩,
         ⟨true, [("count"), ("results"), ("next")], [], true⟩]).isOk = false ∧
      (⟨true, [("count"), ("results"), ("next")],
        [(⟨"A", "a.html"⟩ : ChapterFile)], false⟩ : RawPage).isDict = true ∧
      1 < (⟨true, [("count"), ("results"), ("next")],
        [(⟨"A", "a.html"⟩ : ChapterFile)], false⟩ : RawPage).keys.length ∧
      (⟨true, [("count"), ("results"), ("next")], [], true⟩ : RawPage).isDict = true ∧
      1 < (⟨true, [("count"), ("results"), ("next")], [], true⟩ : RawPage).keys.length ∧
      (⟨true, [("count"), ("results"), ("next")],
        [(⟨"A", "a.html"⟩ : ChapterFile)], false⟩ : RawPage).results ≠ [] := by
  refine ⟨?_, by decide, by decide, by decide, by decide, by decide⟩
  decide

/-! ## Bounded-concurrency batching (`SafariBooks._start_multiprocessing`,
safaribooks.py lines 616-630)

When more than 5 items are queued, the function recurses on the
successive slices `full_queue[i:i+5]` for `i in range(0, len, 5)`;
otherwise it spawns one worker process per item and joins them all
before returning.  The embedding returns the list of batches in the
order they are executed; because every batch is fully joined before
the next recursive call runs, at most one batch - hence at most 5
fetches - is in flight at any instant. -/

/-- Python `range(0, n, 5)`: the start offsets of the batches. -/
def chunkStarts (n : Nat) : List Nat :=
  (List.range ((n + 4) / 5)).map (fun j => 5 * j)

/-- `_start_multiprocessing`, as the sequence of executed batches. -/
def startMultiprocessing {α : Type} (q : List α) : List (List α) :=
  if h : 5 < q.length then
    ((chunkStarts q.length).attach.map
      (fun i => startMultiprocessing ((q.drop i.1).take 5))).join
  else [q]
termination_by q.length
decreasing_by
  simp only [List.length_take, List.length_drop]
  omega

/-- A queue of at most 5 items is executed as a single batch. -/
theorem startMP_small {α : Type} (q : List α) (h : ¬ 5 < q.length) :
    startMultiprocessing q = [q] := by
  rw [startMultiprocessing, dif_neg h]

/-- Flattening a map to singletons is the map itself. -/
theorem join_map_singleton {β γ : Type} (l : List β) (g : β → γ) :
    (l.map (fun x => [g x])).join = l.map g := by
  induction l with
  | nil => rfl
  | cons a t ih => simp only [List.map_cons, List.join_cons, ih, List.singleton_append]

/-- A queue of more than 5 items is executed as the slices
`q[i:i+5]` for the starts `range(0, len, 5)`, in order. -/
theorem startMP_big {α : Type} (q : List α) (h : 5 < q.length) :
    startMultiprocessing q
      = (chunkStarts q.length).map (fun i => (q.drop i).take 5) := by
  rw [startMultiprocessing, dif_pos h]
  have hsmall : ∀ i ∈ (chunkStarts q.length).attach,
      startMultiprocessing ((q.drop i.1).take 5) = [(q.drop i.1).take 5] := by
    intro i _
    apply startMP_small
    simp only [List.length_take, List.length_drop]
    omega
  rw [List.map_congr_left hsmall, join_map_singleton]
  exact List.attach_map_val (chunkStarts q.length) (fun i => (q.drop i).take 5)

/-- Unfolding a `join` over a nonempty list of lists. -/
theorem join_cons_eq {γ : Type} (a : List γ) (L : List (List γ)) :
    (a :: L).join = a ++ L.join := rfl

/-- Concatenating the 5-slices of a list restores the list. -/
theorem chunk_join {α : Type} :
    ∀ (k : Nat) (q : List α), q.length ≤ 5 * k →
      ((List.range k).map (fun j => (q.drop (5 * j)).take 5)).join = q := by
  intro k
  induction k with
  | zero =>
    intro q h
    simp only [Nat.mul_zero, Nat.le_zero] at h
    rw [List.eq_nil_of_length_eq_zero h]
    rfl
  | succ k ih =>
    intro q h
    rw [List.range_succ_eq_map, List.map_cons]
    simp only [List.map_map]
    have hcomp : ((List.range k).map ((fun j => (q.drop (5 * j)).take 5) ∘ Nat.succ))
        = (List.range k).map (fun j => ((q.drop 5).drop (5 * j)).take 5) := by
      apply List.map_congr_left
      intro j _
      simp only [Function.comp]
      rw [Nat.mul_succ, ← List.drop_drop, List.drop_drop, List.drop_drop,
        Nat.add_comm]
    have hlen : (q.drop 5).length ≤ 5 * k := by
      rw [List.length_drop]
      omega
    rw [join_cons_eq, hcomp, ih (q.drop 5) hlen]
    simp only [Nat.mul_zero, List.drop_zero]
    exact List.take_append_drop 5 q

/-- The executed batches partition the queue in order. -/
theorem startMP_join {α : Type} (q : List α) :
    (startMultiprocessing q).join = q := by
  by_cases h : 5 < q.length
  · rw [startMP_big q h]
    unfold chunkStarts
    rw [List.map_map]
    have hcomp : ((fun i => (q.drop i).take 5) ∘ (fun j => 5 * j))
        = (fun j => (q.drop (5 * j)).take 5) := rfl
    rw [hcomp]
    exact chunk_join _ q (by omega)
  · rw [startMP_small q h]
    simp

/-- C9: asset fetching processes the queue in sequential batches of at
most 5 (so, with the per-batch join barrier of the source, at most 5
fetches are in flight at any instant): every executed batch has at
most 5 items, the batches partition the queue in order (each batch
completes before the next starts), and a queue of 12 URLs is executed
as three batches of sizes 5, 5 and 2. -/
theorem c9_asset_batch_concurrency :
    (∀ (q : List String),
        ((startMultiprocessing q).all (fun b => decide (b.length ≤ 5))) = true) ∧
      (∀ (q : List String), (startMultiprocessing q).join = q) ∧
      startMultiprocessing
          [("u1"), ("u2"), ("u3"), ("u4"), ("u5"), ("u6"), ("u7"), ("u8"),
           ("u9"), ("u10"), ("u11"), ("u12")]
        = [[("u1"), ("u2"), ("u3"), ("u4"), ("u5")],
           [("u6"), ("u7"), ("u8"), ("u9"), ("u10")],
           [("u11"), ("u12")]] ∧
      (startMultiprocessing
          [("u1"), ("u2"), ("u3"), ("u4"), ("u5"), ("u6"), ("u7"), ("u8"),
           ("u9"), ("u10"), ("u11"), ("u12")]).map (fun b => b.length)
        = [5, 5, 2] := by
  have hall : ∀ (q : List String),
      ((startMultiprocessing q).all (fun b => decide (b.length ≤ 5))) = true := by
    intro q
    by_cases h : 5 < q.length
    · rw [startMP_big q h, List.all_eq_true]
      intro b hb
      rw [List.mem_map] at hb
      obtain ⟨i, _, rfl⟩ := hb
      simp only [decide_eq_true_eq, List.length_take, List.length_drop]
      omega
    · rw [startMP_small q h]
      simp only [List.all_cons, List.all_nil, Bool.and_true, decide_eq_true_eq]
      omega
  have hjoin : ∀ (q : List String), (startMultiprocessing q).join = q :=
    fun q => startMP_join q
  have h12 : startMultiprocessing
      [("u1"), ("u2"), ("u3"), ("u4"), ("u5"), ("u6"), ("u7"), ("u8"),
       ("u9"), ("u10"), ("u11"), ("u12")]
      = [[("u1"), ("u2"), ("u3"), ("u4"), ("u5")],
         [("u6"), ("u7"), ("u8"), ("u9"), ("u10")],
         [("u11"), ("u12")]] := by
    rw [startMP_big _ (by decide)]
    decide
  refine ⟨hall, hjoin, h12, ?_⟩
  rw [h12]
  rfl

/-! ## Asset-fetch workers (`SafariBooks._thread_download_css`, lines
567-588, and `SafariBooks._thread_download_images`, lines 590-614)

Each worker runs in its own process.  When the target file already
exists it only (possibly) prints an advisory and signals completion on
the shared queue.  Otherwise it fetches the asset; a transport failure
makes `requests_provider` return the integer `0`, the worker reports
the error via `display.error` (non-fatal), then `open(...)` creates
the (empty) target file and `0.iter_content` raises `AttributeError`,
which escapes the worker body and is caught at the process boundary
(`multiprocessing` bootstrap) - the parent only ever joins the
process, so the run continues.  The network is the oracle `net`
(`none` models `requests_provider` returning `0`); the worker body
returns its filesystem effect, whether it reported an error, and
`.error` when the exception escapes; the boundary turns the latter
into a missing completion signal (`done_queue.put` never runs). -/

/-- Outcome of one worker as seen by the rest of the run. -/
structure WorkerOutcome where
  reported : Bool
  donePut : Bool
deriving DecidableEq, Repr

/-- Local image file name: `url.split("/")[-1]`. -/
def imageFileName (url : String) : String :=
  String.mk ((splitOnChar '/' url.data).getLastD [])

/-- Body of `_thread_download_css` for one URL (everything before
`done_queue.put`); may end in an escaped exception. -/
def cssWorkerBody (net : String → Option String) (css : List String)
    (fs : FS) (url : String) : FS × Bool × Except String Unit :=
  let cssFile := cssFileName css url
  if fileExists fs cssFile then (fs, false, .ok ())
  else
    match net url with
    | some body => (writeFile fs cssFile body, false, .ok ())
    | none => (writeFile fs cssFile (""), true,
        .error ("AttributeError: iter_content on int"))

/-- Body of `_thread_download_images` for one URL. -/
def imageWorkerBody (net : String → Option String)
    (fs : FS) (url : String) : FS × Bool × Except String Unit :=
  let name := imageFileName url
  if fileExists fs name then (fs, false, .ok ())
  else
    match net url with
    | some body => (writeFile fs name body, false, .ok ())
    | none => (writeFile fs name (""), true,
        .error ("AttributeError: iter_content on int"))

/-- The process boundary: an exception escaping the body kills only
this worker (its completion signal is never put), the run goes on. -/
def workerBoundary (r : FS × Bool × Except String Unit) : FS × WorkerOutcome :=
  (r.1, ⟨r.2.1, r.2.2.isOk⟩)

/-- One CSS worker as observed by the run. -/
def cssWorker (net : String → Option String) (css : List String)
    (fs : FS) (url : String) : FS × WorkerOutcome :=
  workerBoundary (cssWorkerBody net css fs url)

/-- One image worker as observed by the run. -/
def imageWorker (net : String → Option String)
    (fs : FS) (url : String) : FS × WorkerOutcome :=
  workerBoundary (imageWorkerBody net fs url)

/-- Running the workers of one batch (linearized filesystem effects). -/
def runWorkers (worker : FS → String → FS × WorkerOutcome) :
    List String → FS → FS × List WorkerOutcome
  | [], fs => (fs, [])
  | u :: rest, fs =>
    let r := worker fs u
    let rr := runWorkers worker rest r.1
    (rr.1, r.2 :: rr.2)

/-- Running all batches in order, each joined before the next starts. -/
def runBatches (worker : FS → String → FS × WorkerOutcome) :
    List (List String) → FS → FS × List WorkerOutcome
  | [], fs => (fs, [])
  | b :: rest, fs =>
    let r := runWorkers worker b fs
    let rr := runBatches worker rest r.1
    (rr.1, r.2 ++ rr.2)

/-- Every queued item of a batch yields exactly one outcome. -/
theorem runWorkers_length (worker : FS → String → FS × WorkerOutcome) :
    ∀ (urls : List String) (fs : FS),
      (runWorkers worker urls fs).2.length = urls.length := by
  intro urls
  induction urls with
  | nil => intro fs; rfl
  | cons u rest ih =>
    intro fs
    simp only [runWorkers, List.length_cons, ih]

/-- Every item of every batch yields exactly one outcome. -/
theorem runBatches_length (worker : FS → String → FS × WorkerOutcome) :
    ∀ (bs : List (List String)) (fs : FS),
      (runBatches worker bs fs).2.length = bs.join.length := by
  intro bs
  induction bs with
  | nil => intro fs; rfl
  | cons b rest ih =>
    intro fs
    simp only [runBatches, join_cons_eq, List.length_append, ih,
      runWorkers_length]

/-- C7: a per-item network failure never aborts the run.  (a) A CSS
worker whose fetch fails reports the failure, leaves a zero-byte file
for the asset, and its escaped exception is confined to the worker (no
completion signal, `.donePut = false`); (b) likewise for an image
worker; (c) every remaining item of the batch and of all subsequent
batches still executes: running the batched queue produces exactly one
outcome per queued URL, for every network oracle, including ones that
always fail. -/
theorem c7_asset_failure_nonfatal :
    (∀ (net : String → Option String) (css : List String) (fs : FS) (url : String),
        fileExists fs (cssFileName css url) = false → net url = none →
        cssWorker net css fs url
          = (writeFile fs (cssFileName css url) (""), ⟨true, false⟩) ∧
        readFile (writeFile fs (cssFileName css url) ("")) (cssFileName css url)
          = some ("")) ∧
      (∀ (net : String → Option String) (fs : FS) (url : String),
          fileExists fs (imageFileName url) = false → net url = none →
          imageWorker net fs url
            = (writeFile fs (imageFileName url) (""), ⟨true, false⟩) ∧
          readFile (writeFile fs (imageFileName url) ("")) (imageFileName url)
            = some ("")) ∧
      (∀ (net : String → Option String) (css : List String)
          (urls : List String) (fs : FS),
          (runBatches (cssWorker net css) (startMultiprocessing urls) fs).2.length
            = urls.length) ∧
      (∀ (net : String → Option String) (urls : List String) (fs : FS),
          (runBatches (imageWorker net) (startMultiprocessing urls) fs).2.length
            = urls.length) := by
  refine ⟨?_, ?_, ?_, ?_⟩
  · intro net css fs url hex hnet
    constructor
    · simp only [cssWorker, cssWorkerBody, workerBoundary, hex, hnet,
        Bool.false_eq_true, if_false]
      rfl
    · simp [readFile, writeFile, List.find?]
  · intro net fs url hex hnet
    constructor
    · simp only [imageWorker, imageWorkerBody, workerBoundary, hex, hnet,
        Bool.false_eq_true, if_false]
      rfl
    · simp [readFile, writeFile, List.find?]
  · intro net css urls fs
    rw [runBatches_length, startMP_join]
  · intro net urls fs
    rw [runBatches_length, startMP_join]

/-- C7 witness: with a network that always fails and two fresh CSS
URLs in one batch, both workers run, both report, both leave zero-byte
files, and neither aborts the run. -/
theorem c7_asset_failure_nonfatal_witness :
    (fileExists [] (cssFileName [("u1"), ("u2")] ("u1")) = false ∧
        (fun _ : String => (none : Option String)) ("u1") = none) ∧
      cssWorker (fun _ => none) [("u1"), ("u2")] [] ("u1")
          = (writeFile [] (cssFileName [("u1"), ("u2")] ("u1")) (""), ⟨true, false⟩) ∧
      (runBatches (cssWorker (fun _ => none) [("u1"), ("u2")])
          (startMultiprocessing [("u1"), ("u2")]) []).2.length = 2 := by
  refine ⟨⟨by decide, rfl⟩, ?_, ?_⟩
  · exact (c7_asset_failure_nonfatal.1 (fun _ => none) [("u1"), ("u2")] [] ("u1")
      (by decide) rfl).1
  · have h := c7_asset_failure_nonfatal.2.2.1 (fun _ => none) [("u1"), ("u2")]
      [("u1"), ("u2")] []
    rw [h]
    rfl

/-! ## Package assembly, cover resolution (`SafariBooks.create_content_opf`,
safaribooks.py lines 661-711)

The content.opf document is the `CONTENT_OPF` template with eleven
substituted arguments; a format call concatenates the template
constants and the arguments, so the assembled string is embedded as
the concatenation of an atom list in which every template constant is
one literal atom and every substituted value is decomposed into its
own constants and raw fields.  To reason about "exactly one cover
declaration" the occurrences of the cover-meta pattern are counted
directly on the assembled string; the `selfContainedB` infrastructure
below shows the count distributes over the atoms whenever each atom
either completes or refutes a candidate match within itself. -/

/-- Number of occurrences (counting overlapping start positions) of
`pat` in `s`. -/
def countSub : List Char → List Char → Nat
  | [], _ => 0
  | c :: t, pat => (if pat.isPrefixOf (c :: t) then 1 else 0) + countSub t pat

/-- `earlyMismatch pat s` holds when `pat` and `s` disagree at some
position that both of them cover, so no extension of `s` can have
`pat` as a prefix. -/
def earlyMismatch : List Char → List Char → Bool
  | p :: ps, c :: cs => if p = c then earlyMismatch ps cs else true
  | _, _ => false

/-- A mismatch inside the overlap refutes every extension. -/
theorem earlyMismatch_not_prefix_append :
    ∀ (pat s : List Char), earlyMismatch pat s = true →
      ∀ (b : List Char), pat.isPrefixOf (s ++ b) = false := by
  intro pat
  induction pat with
  | nil => intro s h b; simp [earlyMismatch] at h
  | cons p ps ih =>
    intro s h b
    cases s with
    | nil => simp [earlyMismatch] at h
    | cons c cs =>
      simp only [earlyMismatch] at h
      rw [List.cons_append]
      by_cases hpc : p = c
      · rw [if_pos hpc] at h
        simp only [List.isPrefixOf]
        rw [ih cs h b, Bool.and_false]
      · simp only [List.isPrefixOf]
        have : (p == c) = false := by
          simp only [beq_eq_false_iff_ne, ne_eq]
          exact hpc
        rw [this, Bool.false_and]

/-- A mismatch inside the overlap also refutes `s` itself. -/
theorem earlyMismatch_not_prefix (pat s : List Char)
    (h : earlyMismatch pat s = true) : pat.isPrefixOf s = false := by
  have hx := earlyMismatch_not_prefix_append pat s h []
  rwa [List.append_nil] at hx

/-- A completed prefix survives every extension. -/
theorem isPrefixOf_append_of_isPrefixOf :
    ∀ (pat s : List Char), pat.isPrefixOf s = true →
      ∀ (b : List Char), pat.isPrefixOf (s ++ b) = true := by
  intro pat
  induction pat with
  | nil => intro s _ b; simp [List.isPrefixOf]
  | cons p ps ih =>
    intro s h b
    cases s with
    | nil => simp [List.isPrefixOf] at h
    | cons c cs =>
      simp only [List.isPrefixOf, Bool.and_eq_true] at h
      rw [List.cons_append]
      simp only [List.isPrefixOf, Bool.and_eq_true]
      exact ⟨h.1, ih cs h.2 b⟩

/-- Every candidate match starting inside `a` either completes or dies
inside `a`. -/
def selfContainedB (pat a : List Char) : Bool :=
  (List.range a.length).all
    (fun j => pat.isPrefixOf (a.drop j) || earlyMismatch pat (a.drop j))

/-- Self-containment is inherited by the tail. -/
theorem selfContained_tail (pat : List Char) (x : Char) (xs : List Char)
    (h : selfContainedB pat (x :: xs) = true) : selfContainedB pat xs = true := by
  rw [selfContainedB, List.all_eq_true] at h ⊢
  intro j hj
  have hj2 : (j + 1) ∈ List.range (x :: xs).length := by
    rw [List.mem_range] at hj ⊢
    simp only [List.length_cons]
    omega
  have hx := h (j + 1) hj2
  simpa [List.drop_succ_cons] using hx

/-- For a self-contained left part, occurrence counting distributes
over concatenation (no occurrence straddles the boundary). -/
theorem countSub_append (pat : List Char) :
    ∀ (a b : List Char), selfContainedB pat a = true →
      countSub (a ++ b) pat = countSub a pat + countSub b pat := by
  intro a
  induction a with
  | nil => intro b _; simp [countSub]
  | cons x xs ih =>
    intro b hsc
    have h0 : (pat.isPrefixOf (x :: xs) || earlyMismatch pat (x :: xs)) = true := by
      rw [selfContainedB, List.all_eq_true] at hsc
      have hx := hsc 0 (by rw [List.mem_range]; simp)
      simpa using hx
    have htail := selfContained_tail pat x xs hsc
    rw [List.cons_append]
    simp only [countSub]
    rw [ih b htail]
    cases hp : pat.isPrefixOf (x :: xs)
    · have hem : earlyMismatch pat (x :: xs) = true := by
        rw [hp] at h0
        simpa using h0
      have h1 := earlyMismatch_not_prefix_append pat (x :: xs) hem b
      rw [List.cons_append] at h1
      rw [h1, Nat.add_assoc]
    · have h1 := isPrefixOf_append_of_isPrefixOf pat (x :: xs) hp b
      rw [List.cons_append] at h1
      rw [h1, Nat.add_assoc]

/-- Concatenating a list of strings. -/
def concatStrings : List String → String
  | [] => ""
  | s :: rest => s ++ concatStrings rest

/-- Data of an appended string. -/
theorem data_append (a b : String) : (a ++ b).data = a.data ++ b.data := by
  cases a
  cases b
  rfl

/-- Occurrence counting over a concatenation of self-contained atoms
is the sum of the per-atom counts. -/
theorem countSub_concat (pat : List Char) :
    ∀ (atoms : List String), (∀ a ∈ atoms, selfContainedB pat a.data = true) →
      countSub (concatStrings atoms).data pat
        = (atoms.map (fun a => countSub a.data pat)).sum := by
  intro atoms
  induction atoms with
  | nil => intro _; rfl
  | cons a rest ih =>
    intro h
    have e : (concatStrings (a :: rest)) = a ++ concatStrings rest := rfl
    rw [e, data_append,
      countSub_append pat a.data (concatStrings rest).data (h a (List.mem_cons_self _ _)),
      ih (fun x hx => h x (List.mem_cons_of_mem _ hx)),
      List.map_cons, List.sum_cons]

/-- The searched pattern: the opening of the cover declaration
`<meta name="cover"` of the assembled content.opf. -/
def coverMetaPat : List Char := ("<meta name=\"cover\"").data

/-- A string without `<` is self-contained for the cover pattern. -/
theorem selfContained_no_lt (s : List Char) (h : ('<') ∉ s) :
    selfContainedB coverMetaPat s = true := by
  rw [selfContainedB, List.all_eq_true]
  intro j hj
  rw [List.mem_range] at hj
  cases hd : s.drop j with
  | nil =>
    exfalso
    have hlen : (s.drop j).length = s.length - j := List.length_drop j s
    rw [hd] at hlen
    simp only [List.length_nil] at hlen
    omega
  | cons c cs =>
    have hc : c ∈ s := by
      have hx : c ∈ s.drop j := by
        rw [hd]
        exact List.mem_cons_self _ _
      exact List.drop_subset _ _ hx
    have hcne : ¬ ('<' = c) := fun he => h (he ▸ hc)
    have hem : earlyMismatch coverMetaPat (c :: cs) = true := by
      show earlyMismatch ('<' :: ("meta name=\"cover\"").data) (c :: cs) = true
      simp only [earlyMismatch]
      rw [if_neg hcne]
    rw [hem, Bool.or_true]

/-- A string without `<` contains no cover-pattern occurrence. -/
theorem countSub_no_lt (s : List Char) (h : ('<') ∉ s) :
    countSub s coverMetaPat = 0 := by
  induction s with
  | nil => rfl
  | cons c t ih =>
    have htail : ('<') ∉ t := fun hx => h (List.mem_cons_of_mem _ hx)
    have hne : ¬ ('<' = c) := fun he => h (he ▸ List.mem_cons_self _ _)
    simp only [countSub]
    have hp : coverMetaPat.isPrefixOf (c :: t) = false := by
      show (('<' :: ("meta name=\"cover\"").data).isPrefixOf (c :: t)) = false
      simp only [List.isPrefixOf]
      have hb : ('<' == c) = false := by
        simp only [beq_eq_false_iff_ne, ne_eq]
        exact hne
      rw [hb, Bool.false_and]
    rw [hp, ih htail]
    rfl

/-- An atom that contributes no cover declaration. -/
def zeroAtom (s : String) : Prop :=
  selfContainedB coverMetaPat s.data = true ∧ countSub s.data coverMetaPat = 0

/-- Atoms without `<` contribute no cover declaration. -/
theorem zeroAtom_of_no_lt (s : String) (h : ('<') ∉ s.data) : zeroAtom s :=
  ⟨selfContained_no_lt s.data h, countSub_no_lt s.data h⟩

/-- Escaped atoms contribute no cover declaration. -/
theorem zeroAtom_escape (s : String) : zeroAtom (escapeHtml s) :=
  zeroAtom_of_no_lt _ (by
    show ('<') ∉ escapeL s.data
    exact lt_not_mem_escapeL s.data)

/-- Padded numbers contribute no cover declaration. -/
theorem zeroAtom_pad2 (n : Nat) : zeroAtom (pad2 n) :=
  zeroAtom_of_no_lt _ (lt_not_mem_pad2 n)

/-- A document of harmless atoms around one cover-meta constant and
its value field declares exactly one cover. -/
theorem countSub_pre_meta_post (pre post : List String) (field : String)
    (hpre : ∀ a ∈ pre, zeroAtom a) (hpost : ∀ a ∈ post, zeroAtom a)
    (hfield : zeroAtom field) :
    countSub (concatStrings
        (pre ++ [("<meta name=\"cover\" content=\"")] ++ [field] ++ post)).data
      coverMetaPat = 1 := by
  rw [countSub_concat]
  · simp only [List.map_append, List.sum_append]
    have hzpre : (pre.map (fun a => countSub a.data coverMetaPat)).sum = 0 := by
      apply List.sum_eq_zero
      intro x hx
      rcases List.mem_map.1 hx with ⟨a, ha, rfl⟩
      exact (hpre a ha).2
    have hzpost : (post.map (fun a => countSub a.data coverMetaPat)).sum = 0 := by
      apply List.sum_eq_zero
      intro x hx
      rcases List.mem_map.1 hx with ⟨a, ha, rfl⟩
      exact (hpost a ha).2
    rw [hzpre, hzpost]
    have hmeta : countSub (("<meta name=\"cover\" content=\"") : String).data
        coverMetaPat = 1 := by decide
    simp only [List.map_cons, List.map_nil, List.sum_cons, List.sum_nil, hmeta,
      hfield.2]
    omega
  · intro a ha
    rcases List.mem_append.1 ha with h1 | h1
    · rcases List.mem_append.1 h1 with h2 | h2
      · rcases List.mem_append.1 h2 with h3 | h3
        · exact (hpre a h3).1
        · have ha2 : a = ("<meta name=\"cover\" content=\"") := by simpa using h3
          rw [ha2]
          decide
      · have ha2 : a = field := by simpa using h2
        rw [ha2]
        exact hfield.1
    · exact (hpost a h1).1

/-- The inputs of `create_content_opf`: book metadata, the (already
crawled) chapter list, the in-memory image-discovery list, and the
directory listings of the Styles and Images directories which the
method reads back from disk (`next(os.walk(..))[2]`). -/
structure OpfInput where
  bookId : String
  isbn : String
  title : String
  authors : List String
  subjects : List String
  description : String
  publishers : List String
  rights : String
  chapters : List String
  discoveredImages : List String
  cssFiles : List String
  imageFiles : List String

/-- Manifest item id of a chapter:
`escape("".join(filename.split(".")[:-1]))` after the `.html` to
`.xhtml` renaming. -/
def chapterItemId (c : String) : String :=
  escapeHtml (String.mk ((splitOnChar '.' (xhtmlName c).data).dropLast.join))

/-- Manifest atoms of one chapter item. -/
def chapterManifestAtoms (c : String) : List String :=
  [("<item id=\""), chapterItemId c, ("\" href=\""), xhtmlName c,
   ("\" media-type=\"application/xhtml+xml\" />")]

/-- Spine atoms of one chapter. -/
def spineAtoms (c : String) : List String :=
  [("<itemref idref=\""), chapterItemId c, ("\"/>")]

/-- Manifest item id of an image file:
`"img_" + escape("".join(i.split(".")[:-1]))`. -/
def imageItemId (i : String) : String :=
  ("img_") ++ escapeHtml (String.mk ((splitOnChar '.' i.data).dropLast.join))

/-- Extension of an image file: its final dot-component
(`i.split(".")[-1]`). -/
def imageExt (i : String) : String :=
  String.mk ((splitOnChar '.' i.data).getLastD [])

/-- Media type of an image file: `"jpeg" if "jp" in extension else
extension`. -/
def imageMediaType (i : String) : String :=
  if containsSub (imageExt i).data (("jp").data) then ("jpeg") else imageExt i

/-- Manifest atoms of one image item. -/
def imageManifestAtoms (i : String) : List String :=
  [("<item id=\""), imageItemId i, ("\" href=\"Images/"), i,
   ("\" media-type=\"image/"), imageMediaType i, ("\" />")]

/-- Manifest atoms of stylesheet `k` (one-based, from
`range(1, len(css) + 1)`). -/
def cssManifestAtoms (k : Nat) : List String :=
  [("<item id=\"style_"), pad2 k, ("\" href=\"Styles/Style"), pad2 k,
   ("\" media-type=\"text/css\" />")]

/-- Atoms of one `dc:creator` author entry. -/
def authorAtoms (name : String) : List String :=
  [("<dc:creator opf:file-as=\""), escapeHtml name, ("\" opf:role=\"aut\">"),
   escapeHtml name, ("</dc:creator>")]

/-- Atoms of one `dc:subject` entry. -/
def subjectAtoms (name : String) : List String :=
  [("<dc:subject>"), escapeHtml name, ("</dc:subject>")]

/-- Atom-level `sep.join(..)`: the blocks with the separator between
consecutive blocks. -/
def intercalateAtoms (sep : String) : List (List String) → List String
  | [] => []
  | [x] => x
  | x :: rest => x ++ [sep] ++ intercalateAtoms sep rest

/-- The `alt_cover_id` loop over the Images directory listing: the
first file's manifest id wins, later files leave it unchanged
(`if not alt_cover_id`). -/
def altCoverFold (imgs : List String) : Option String :=
  imgs.foldl (fun acc i => if acc.isNone then some (imageItemId i) else acc) none

/-- `self.cover`: the first discovered image when any, else the falsy
empty string (`self.images[0] if len(self.images) else ""`). -/
def firstDiscovered (l : List String) : String :=
  match l with
  | [] => ""
  | i :: _ => i

/-- The value substituted for the cover meta attribute:
`self.cover if self.cover else alt_cover_id`, where a still unset
`alt_cover_id` (Images directory empty) formats as `False`. -/
def coverContent (inp : OpfInput) : String :=
  if firstDiscovered inp.discoveredImages ≠ ""
  then firstDiscovered inp.discoveredImages
  else
    match altCoverFold inp.imageFiles with
    | some h => h
    | none => ("False")

/-- The isbn when nonempty, else the book id (argument 0). -/
def isbnOrId (inp : OpfInput) : String :=
  if inp.isbn.length ≠ 0 then inp.isbn else inp.bookId

/-- The guide's cover-page reference: the first chapter's (already
renamed) filename run through the `.html` to `.xhtml` replace once
more by the format argument. -/
def guideRef (inp : OpfInput) : String :=
  pyReplace (xhtmlName (inp.chapters.headD (""))) (".html") (".xhtml")

/-- Template constant up to the title. -/
def opfT0 : String :=
  "<?xml version=\"1.0\" encoding=\"UTF-8\"?>\n" ++
    "<package xmlns=\"http://www.idpf.org/2007/opf\" unique-identifier=\"bookid\" version=\"2.0\" >\n" ++
    "<metadata xmlns:dc=\"http://purl.org/dc/elements/1.1/\" " ++
    " xmlns:opf=\"http://www.idpf.org/2007/opf\">\n" ++
    "<dc:title>"

/-- Template constant after the title. -/
def opfT1 : String := "</dc:title>\n"

/-- Template constant between authors and description. -/
def opfT2 : String := "\n<dc:description>"

/-- Template constant after the description. -/
def opfT3 : String := "</dc:description>\n"

/-- Template constant before the publisher list. -/
def opfT4 : String := "<dc:publisher>"

/-- Template constant between publisher and rights. -/
def opfT5 : String := "</dc:publisher>\n<dc:rights>"

/-- Template constant between rights and the identifier. -/
def opfT6 : String :=
  "</dc:rights>\n<dc:language>en-US</dc:language>\n<dc:identifier id=\"bookid\">"

/-- Template constant after the identifier. -/
def opfT7 : String := "</dc:identifier>\n"

/-- Template constant closing the cover meta and opening the manifest. -/
def opfT8 : String :=
  "\"/>\n</metadata>\n<manifest>\n" ++
    "<item id=\"ncx\" href=\"toc.ncx\" media-type=\"application/x-dtbncx+xml\" />\n"

/-- Template constant between manifest and spine. -/
def opfT9 : String := "\n</manifest>\n<spine toc=\"ncx\">\n"

/-- Template constant between spine and the guide reference. -/
def opfT10 : String := "</spine>\n<guide><reference href=\""

/-- Template constant closing the document. -/
def opfT11 : String := "\" title=\"Cover\" type=\"cover\" /></guide>\n</package>"

/-- The manifest argument (format slot 8): chapter items, then image
items, then stylesheet items. -/
def manifestBlocks (inp : OpfInput) : List (List String) :=
  inp.chapters.map chapterManifestAtoms ++
    inp.imageFiles.map imageManifestAtoms ++
    (List.range' 1 inp.cssFiles.length 1).map cssManifestAtoms

/-- Atoms of the assembled document before the cover meta constant. -/
def contentOpfPreAtoms (inp : OpfInput) : List String :=
  [opfT0, escapeHtml inp.title, opfT1] ++
    intercalateAtoms ("\n") (inp.authors.map authorAtoms) ++
    [opfT2, escapeHtml inp.description, opfT3] ++
    intercalateAtoms ("\n") (inp.subjects.map subjectAtoms) ++
    [opfT4] ++
    intercalateAtoms (", ") (inp.publishers.map (fun p => [escapeHtml p])) ++
    [opfT5, escapeHtml inp.rights, opfT6, isbnOrId inp, opfT7]

/-- Atoms of the assembled document after the cover value. -/
def contentOpfPostAtoms (inp : OpfInput) : List String :=
  [opfT8] ++
    intercalateAtoms ("\n") (manifestBlocks inp) ++
    [opfT9] ++
    intercalateAtoms ("\n") (inp.chapters.map spineAtoms) ++
    [opfT10, guideRef inp, opfT11]

/-- All atoms of the assembled content.opf, in document order. -/
def contentOpfAtoms (inp : OpfInput) : List String :=
  contentOpfPreAtoms inp ++ [("<meta name=\"cover\" content=\"")] ++
    [coverContent inp] ++ contentOpfPostAtoms inp

/-- `create_content_opf`: the formatted document (format is
concatenation of template constants and arguments). -/
def createContentOpf (inp : OpfInput) : String :=
  concatStrings (contentOpfAtoms inp)

/-- The last element (with default) of a nonempty list is a member. -/
theorem getLastD_mem {β : Type} :
    ∀ (l : List β) (d : β), l ≠ [] → l.getLastD d ∈ l := by
  intro l
  induction l with
  | nil => intro d h; exact absurd rfl h
  | cons a t ih =>
    intro d _
    cases t with
    | nil => simp [List.getLastD_cons, List.getLastD]
    | cons b ts =>
      rw [List.getLastD_cons]
      exact List.mem_cons_of_mem _ (ih a (by simp))

/-- Members of an intercalation are the separator or block members. -/
theorem mem_intercalateAtoms (sep : String) :
    ∀ (xss : List (List String)) (a : String),
      a ∈ intercalateAtoms sep xss → a = sep ∨ ∃ x ∈ xss, a ∈ x := by
  intro xss
  induction xss with
  | nil => intro a h; simp [intercalateAtoms] at h
  | cons x rest ih =>
    intro a h
    cases rest with
    | nil =>
      right
      exact ⟨x, List.mem_cons_self _ _, by simpa [intercalateAtoms] using h⟩
    | cons y ys =>
      simp only [intercalateAtoms] at h
      rcases List.mem_append.1 h with h1 | h1
      · rcases List.mem_append.1 h1 with h2 | h2
        · right
          exact ⟨x, List.mem_cons_self _ _, h2⟩
        · left
          simpa using h2
      · rcases ih a h1 with h2 | ⟨z, hz, haz⟩
        · left
          exact h2
        · right
          exact ⟨z, List.mem_cons_of_mem _ hz, haz⟩

/-- Renamed chapter files contain no `<` when the original does not. -/
theorem no_lt_xhtmlName (c : String) (h : ('<') ∉ c.data) :
    ('<') ∉ (xhtmlName c).data := by
  intro hx
  have hx2 : ('<') ∈ replaceL c.data.length c.data ((".html").data) ((".xhtml").data) := hx
  rcases mem_replaceL _ _ _ _ _ hx2 with h1 | h1
  · exact h h1
  · exact absurd h1 (by decide)

/-- Image extensions contain no `<` when the file name does not. -/
theorem no_lt_imageExt (i : String) (h : ('<') ∉ i.data) :
    ('<') ∉ (imageExt i).data := by
  intro hx
  have hmem : (splitOnChar '.' i.data).getLastD [] ∈ splitOnChar '.' i.data :=
    getLastD_mem _ _ (splitOnChar_ne_nil _ _)
  exact h (mem_splitOnChar '.' i.data _ '<' hmem hx)

/-- Image media types contain no `<` when the file name does not. -/
theorem no_lt_imageMediaType (i : String) (h : ('<') ∉ i.data) :
    ('<') ∉ (imageMediaType i).data := by
  unfold imageMediaType
  split
  · decide
  · exact no_lt_imageExt i h

/-- Image manifest ids contain no `<`. -/
theorem no_lt_imageItemId (i : String) : ('<') ∉ (imageItemId i).data := by
  intro hx
  have hx2 : ('<') ∈ ("img_").data ++
      (escapeHtml (String.mk ((splitOnChar '.' i.data).dropLast.join))).data := by
    rw [← data_append]
    exact hx
  rcases List.mem_append.1 hx2 with h1 | h1
  · exact absurd h1 (by decide)
  · exact lt_not_mem_escapeL _ h1

/-- The guide reference contains no `<` when chapter names do not. -/
theorem no_lt_guideRef (inp : OpfInput)
    (hC : ∀ c ∈ inp.chapters, ('<') ∉ c.data) : ('<') ∉ (guideRef inp).data := by
  have hhead : ('<') ∉ (inp.chapters.headD ("")).data := by
    cases hch : inp.chapters with
    | nil => decide
    | cons c0 r =>
      have : c0 ∈ inp.chapters := by
        rw [hch]
        exact List.mem_cons_self _ _
      exact hC c0 this
  intro hx
  rcases mem_replaceL _ _ _ _ _ hx with h1 | h1
  · exact no_lt_xhtmlName _ hhead h1
  · exact absurd h1 (by decide)

/-- Folding the `alt_cover_id` update from a set value changes nothing. -/
theorem altCoverFold_stays (x : String) :
    ∀ (l : List String),
      l.foldl (fun acc i => if acc.isNone then some (imageItemId i) else acc)
        (some x) = some x := by
  intro l
  induction l with
  | nil => rfl
  | cons a t ih =>
    rw [List.foldl_cons]
    simp only [Option.isNone_some, Bool.false_eq_true, if_false]
    exact ih

/-- On a nonempty Images listing, `alt_cover_id` is the first file's
manifest id. -/
theorem altCoverFold_cons (i : String) (rest : List String) :
    altCoverFold (i :: rest) = some (imageItemId i) := by
  unfold altCoverFold
  rw [List.foldl_cons]
  show List.foldl
      (fun acc j => if acc.isNone then some (imageItemId j) else acc)
      (some (imageItemId i)) rest = some (imageItemId i)
  exact altCoverFold_stays _ rest

/-- The substituted cover value contains no `<` when the raw inputs do
not. -/
theorem no_lt_coverContent (inp : OpfInput)
    (hE : ∀ i ∈ inp.discoveredImages, ('<') ∉ i.data) :
    ('<') ∉ (coverContent inp).data := by
  unfold coverContent
  split
  · cases hdisc : inp.discoveredImages with
    | nil => decide
    | cons i r =>
      have hmem : i ∈ inp.discoveredImages := by
        rw [hdisc]
        exact List.mem_cons_self _ _
      exact hE i hmem
  · cases haf : altCoverFold inp.imageFiles with
    | none => decide
    | some v =>
      show ('<') ∉ v.data
      cases hif : inp.imageFiles with
      | nil =>
        rw [hif] at haf
        simp [altCoverFold] at haf
      | cons i r =>
        rw [hif, altCoverFold_cons] at haf
        have hv := Option.some.inj haf
        rw [← hv]
        exact no_lt_imageItemId i

/-- Author entries contribute no cover declaration. -/
theorem zeroAtom_authorAtoms (name : String) :
    ∀ a ∈ authorAtoms name, zeroAtom a := by
  intro a ha
  simp only [authorAtoms, List.mem_cons, List.not_mem_nil, or_false] at ha
  rcases ha with rfl | rfl | rfl | rfl | rfl
  · exact ⟨by decide, by decide⟩
  · exact zeroAtom_escape name
  · exact ⟨by decide, by decide⟩
  · exact zeroAtom_escape name
  · exact ⟨by decide, by decide⟩

/-- Subject entries contribute no cover declaration. -/
theorem zeroAtom_subjectAtoms (name : String) :
    ∀ a ∈ subjectAtoms name, zeroAtom a := by
  intro a ha
  simp only [subjectAtoms, List.mem_cons, List.not_mem_nil, or_false] at ha
  rcases ha with rfl | rfl | rfl
  · exact ⟨by decide, by decide⟩
  · exact zeroAtom_escape name
  · exact ⟨by decide, by decide⟩

/-- Chapter manifest items contribute no cover declaration. -/
theorem zeroAtom_chapterManifestAtoms (c : String) (h : ('<') ∉ c.data) :
    ∀ a ∈ chapterManifestAtoms c, zeroAtom a := by
  intro a ha
  simp only [chapterManifestAtoms, List.mem_cons, List.not_mem_nil, or_false] at ha
  rcases ha with rfl | rfl | rfl | rfl | rfl
  · exact ⟨by decide, by decide⟩
  · exact zeroAtom_escape (String.mk ((splitOnChar '.' (xhtmlName c).data).dropLast.join))
  · exact ⟨by decide, by decide⟩
  · exact zeroAtom_of_no_lt _ (no_lt_xhtmlName c h)
  · exact ⟨by decide, by decide⟩

/-- Spine items contribute no cover declaration. -/
theorem zeroAtom_spineAtoms (c : String) :
    ∀ a ∈ spineAtoms c, zeroAtom a := by
  intro a ha
  simp only [spineAtoms, List.mem_cons, List.not_mem_nil, or_false] at ha
  rcases ha with rfl | rfl | rfl
  · exact ⟨by decide, by decide⟩
  · exact zeroAtom_escape (String.mk ((splitOnChar '.' (xhtmlName c).data).dropLast.join))
  · exact ⟨by decide, by decide⟩

/-- Image manifest items contribute no cover declaration. -/
theorem zeroAtom_imageManifestAtoms (i : String) (h : ('<') ∉ i.data) :
    ∀ a ∈ imageManifestAtoms i, zeroAtom a := by
  intro a ha
  simp only [imageManifestAtoms, List.mem_cons, List.not_mem_nil, or_false] at ha
  rcases ha with rfl | rfl | rfl | rfl | rfl | rfl | rfl
  · exact ⟨by decide, by decide⟩
  · exact zeroAtom_of_no_lt _ (no_lt_imageItemId i)
  · exact ⟨by decide, by decide⟩
  · exact zeroAtom_of_no_lt _ h
  · exact ⟨by decide, by decide⟩
  · exact zeroAtom_of_no_lt _ (no_lt_imageMediaType i h)
  · exact ⟨by decide, by decide⟩

/-- Stylesheet manifest items contribute no cover declaration. -/
theorem zeroAtom_cssManifestAtoms (k : Nat) :
    ∀ a ∈ cssManifestAtoms k, zeroAtom a := by
  intro a ha
  simp only [cssManifestAtoms, List.mem_cons, List.not_mem_nil, or_false] at ha
  rcases ha with rfl | rfl | rfl | rfl | rfl
  · exact ⟨by decide, by decide⟩
  · exact zeroAtom_pad2 k
  · exact ⟨by decide, by decide⟩
  · exact zeroAtom_pad2 k
  · exact ⟨by decide, by decide⟩

/-- Every atom before the cover meta constant is harmless. -/
theorem zeroAtom_preAtoms (inp : OpfInput)
    (hA : ('<') ∉ inp.isbn.data) (hB : ('<') ∉ inp.bookId.data) :
    ∀ a ∈ contentOpfPreAtoms inp, zeroAtom a := by
  intro a ha
  unfold contentOpfPreAtoms at ha
  rcases List.mem_append.1 ha with h1 | hA4
  · rcases List.mem_append.1 h1 with h2 | hB3
    · rcases List.mem_append.1 h2 with h3 | hA3
      · rcases List.mem_append.1 h3 with h4 | hB2
        · rcases List.mem_append.1 h4 with h5 | hA2
          · rcases List.mem_append.1 h5 with hA1 | hB1
            · simp only [List.mem_cons, List.not_mem_nil, or_false] at hA1
              rcases hA1 with rfl | rfl | rfl
              · exact ⟨by decide, by decide⟩
              · exact zeroAtom_escape inp.title
              · exact ⟨by decide, by decide⟩
            · rcases mem_intercalateAtoms _ _ a hB1 with rfl | ⟨x, hx, hax⟩
              · exact ⟨by decide, by decide⟩
              · rcases List.mem_map.1 hx with ⟨name, _, rfl⟩
                exact zeroAtom_authorAtoms name a hax
          · simp only [List.mem_cons, List.not_mem_nil, or_false] at hA2
            rcases hA2 with rfl | rfl | rfl
            · exact ⟨by decide, by decide⟩
            · exact zeroAtom_escape inp.description
            · exact ⟨by decide, by decide⟩
        · rcases mem_intercalateAtoms _ _ a hB2 with rfl | ⟨x, hx, hax⟩
          · exact ⟨by decide, by decide⟩
          · rcases List.mem_map.1 hx with ⟨name, _, rfl⟩
            exact zeroAtom_subjectAtoms name a hax
      · simp only [List.mem_cons, List.not_mem_nil, or_false] at hA3
        rcases hA3 with rfl
        exact ⟨by decide, by decide⟩
    · rcases mem_intercalateAtoms _ _ a hB3 with rfl | ⟨x, hx, hax⟩
      · exact ⟨by decide, by decide⟩
      · rcases List.mem_map.1 hx with ⟨pb, _, rfl⟩
        have hax2 : a = escapeHtml pb := by simpa using hax
        rcases hax2 with rfl
        exact zeroAtom_escape pb
  · simp only [List.mem_cons, List.not_mem_nil, or_false] at hA4
    rcases hA4 with rfl | rfl | rfl | rfl | rfl
    · exact ⟨by decide, by decide⟩
    · exact zeroAtom_escape inp.rights
    · exact ⟨by decide, by decide⟩
    · refine zeroAtom_of_no_lt _ ?_
      unfold isbnOrId
      split
      · exact hA
      · exact hB
    · exact ⟨by decide, by decide⟩

/-- Every atom after the cover value is harmless. -/
theorem zeroAtom_postAtoms (inp : OpfInput)
    (hC : ∀ c ∈ inp.chapters, ('<') ∉ c.data)
    (hD : ∀ i ∈ inp.imageFiles, ('<') ∉ i.data) :
    ∀ a ∈ contentOpfPostAtoms inp, zeroAtom a := by
  intro a ha
  unfold contentOpfPostAtoms at ha
  rcases List.mem_append.1 ha with h1 | hLast
  · rcases List.mem_append.1 h1 with h2 | hBs
    · rcases List.mem_append.1 h2 with h3 | hT9
      · rcases List.mem_append.1 h3 with hT8 | hBm
        · have hx2 : a = opfT8 := by simpa using hT8
          rcases hx2 with rfl
          exact ⟨by decide, by decide⟩
        · rcases mem_intercalateAtoms _ _ a hBm with rfl | ⟨x, hx, hax⟩
          · exact ⟨by decide, by decide⟩
          · unfold manifestBlocks at hx
            rcases List.mem_append.1 hx with h4 | hcss
            · rcases List.mem_append.1 h4 with hch | him
              · rcases List.mem_map.1 hch with ⟨c, hc, rfl⟩
                exact zeroAtom_chapterManifestAtoms c (hC c hc) a hax
              · rcases List.mem_map.1 him with ⟨i, hi, rfl⟩
                exact zeroAtom_imageManifestAtoms i (hD i hi) a hax
            · rcases List.mem_map.1 hcss with ⟨k, _, rfl⟩
              exact zeroAtom_cssManifestAtoms k a hax
      · have hx2 : a = opfT9 := by simpa using hT9
        rcases hx2 with rfl
        exact ⟨by decide, by decide⟩
    · rcases mem_intercalateAtoms _ _ a hBs with rfl | ⟨x, hx, hax⟩
      · exact ⟨by decide, by decide⟩
      · rcases List.mem_map.1 hx with ⟨c, _, rfl⟩
        exact zeroAtom_spineAtoms c a hax
  · simp only [List.mem_cons, List.not_mem_nil, or_false] at hLast
    rcases hLast with rfl | rfl | rfl
    · exact ⟨by decide, by decide⟩
    · exact zeroAtom_of_no_lt _ (no_lt_guideRef inp hC)
    · exact ⟨by decide, by decide⟩

/-- C6: cover resolution of the assembled content.opf.  (a) When no
image was discovered during crawling and the Images directory listing
is nonempty, the cover meta attribute is exactly the identifier of the
first image manifest entry (derived from the first listed file), which
is never the empty string; (b) for every run whose raw string inputs
(identifiers, file names, discovered URLs; everything else is
HTML-escaped by the code) contain no `<`, the assembled document
contains exactly one cover declaration `<meta name="cover"`. -/
theorem c6_cover_resolution :
    (∀ (inp : OpfInput), inp.discoveredImages = [] → inp.imageFiles ≠ [] →
        coverContent inp = imageItemId (inp.imageFiles.headD ("")) ∧
          coverContent inp ≠ "") ∧
      (∀ (inp : OpfInput),
          ('<') ∉ inp.isbn.data → ('<') ∉ inp.bookId.data →
          (∀ c ∈ inp.chapters, ('<') ∉ c.data) →
          (∀ i ∈ inp.imageFiles, ('<') ∉ i.data) →
          (∀ i ∈ inp.discoveredImages, ('<') ∉ i.data) →
          countSub (createContentOpf inp).data coverMetaPat = 1) := by
  constructor
  · intro inp hdisc hne
    have hfd : firstDiscovered inp.discoveredImages = "" := by
      rw [hdisc]
      rfl
    unfold coverContent
    rw [if_neg (by rw [hfd]; exact fun hcontra => hcontra rfl)]
    cases hif : inp.imageFiles with
    | nil => exact absurd hif hne
    | cons i r =>
      rw [altCoverFold_cons]
      constructor
      · rfl
      · intro he
        have he2 : imageItemId i = "" := he
        have hmem : ('i') ∈ (imageItemId i).data := by
          show ('i') ∈ (("img_") ++
            escapeHtml (String.mk ((splitOnChar '.' i.data).dropLast.join))).data
          rw [data_append]
          exact List.mem_append_left _ (by decide)
        rw [he2] at hmem
        exact absurd hmem (by decide)
  · intro inp hA hB hC hD hE
    exact countSub_pre_meta_post (contentOpfPreAtoms inp) (contentOpfPostAtoms inp)
      (coverContent inp) (zeroAtom_preAtoms inp hA hB) (zeroAtom_postAtoms inp hC hD)
      (zeroAtom_of_no_lt _ (no_lt_coverContent inp hE))

/-- A concrete run for the witness: one chapter, no discovered image,
one stylesheet and one file in the Images directory. -/
def opfDemo : OpfInput :=
  ⟨("99"), ("123"), ("T"), [("A")], [("S")], ("D"), [("P")], ("R"),
   [("ch1.html")], [], [("s.css")], [("mycover.png")]⟩

/-- C6 witness: both parts of the theorem at the concrete run, each
hypothesis discharged by evaluation. -/
theorem c6_cover_resolution_witness :
    (coverContent opfDemo = imageItemId (opfDemo.imageFiles.headD ("")) ∧
        coverContent opfDemo ≠ "") ∧
      countSub (createContentOpf opfDemo).data coverMetaPat = 1 :=
  ⟨c6_cover_resolution.1 opfDemo rfl (by decide),
   c6_cover_resolution.2 opfDemo (by decide) (by decide) (by decide) (by decide)
     (by decide)⟩
